import Mathlib

/-!
Verification of the transaction-scheduling core of a blockchain validator's
banking pipeline: the thread-aware account-lock table, the bounded priority
container, and the central non-conflicting scheduler queue. Rust machine
integers are modelled as `Nat`, with explicit checks where `u64`/`u32`
overflow matters; panics (`assert!`, `unwrap`, `expect`) are modelled by
`Option`-valued functions returning `none`.
-/

/-! ## ThreadSet (src/core/src/banking_stage/thread_aware_account_locks.rs) -/

/-- Number of supported scheduler worker threads (source constant). -/
def MAX_THREADS : Nat := 64

/-- A `ThreadSet` is a `u64` bitset; we model its value as a `Nat` that is
kept below `2 ^ 64` by all operations. -/
abbrev ThreadSet := Nat

/-- Source `ThreadSet::none`: the empty bitset. -/
def ThreadSet.noThreads : ThreadSet := 0

/-- Source `ThreadSet::any(num_threads)`: the value `(1 << num_threads) - 1`,
read at mathematical (Nat) precision. For `num_threads < 64` this is exactly
the u64 the source computes; the u64 boundary case `num_threads = 64` is
modelled separately by `ThreadSet.anyU64Checked` and `ThreadSet.anyU64Release`. -/
def ThreadSet.any (num_threads : Nat) : ThreadSet := (1 <<< num_threads) - 1

/-- Source `ThreadSet::any` under checked (debug) u64 semantics: the shift
`1u64 << num_threads` panics (arithmetic overflow) when `num_threads ≥ 64`. -/
def ThreadSet.anyU64Checked (num_threads : Nat) : Option ThreadSet :=
  if num_threads < 64 then some ((1 <<< num_threads) - 1) else none

/-- Source `ThreadSet::any` under release u64 semantics: the shift amount is
masked to the bit width (`num_threads % 64`), then 1 is subtracted with u64
wrapping. -/
def ThreadSet.anyU64Release (num_threads : Nat) : ThreadSet :=
  ((1 <<< (num_threads % 64)) % 2 ^ 64 + 2 ^ 64 - 1) % 2 ^ 64

/-- Source `ThreadSet::only(thread_id)`: the singleton bitset `1 << thread_id`. -/
def ThreadSet.only (thread_id : Nat) : ThreadSet := 1 <<< thread_id

/-- Source `ThreadSet::contains`: `self.0 & (1 << thread_id) != 0`. -/
def ThreadSet.containsThread (s : ThreadSet) (thread_id : Nat) : Bool :=
  s &&& (1 <<< thread_id) != 0

/-- Source `ThreadSet::remove`: `self.0 &= !(1 << thread_id)`; the u64
complement of `1 << thread_id` is `(2^64 - 1) XOR (1 << thread_id)`. -/
def ThreadSet.removeThread (s : ThreadSet) (thread_id : Nat) : ThreadSet :=
  s &&& ((2 ^ 64 - 1) ^^^ (1 <<< thread_id))

/-- Source `ThreadSet::num_threads`: the population count, computed over the
64 bit positions of the word. -/
def ThreadSet.numThreadsIn (s : ThreadSet) : Nat :=
  ((List.range 64).filter (fun i => s.testBit i)).length

/-- Source `trailing_zeros` on a u64: index of the lowest set bit, 64 if none. -/
def ThreadSet.trailingZeros (s : ThreadSet) : Nat :=
  (((List.range 64).find? (fun i => s.testBit i)).getD 64)

/-- Source `ThreadSet::only_one_scheduled`: `Some(trailing_zeros)` iff the
population count is exactly 1. -/
def ThreadSet.only_one_scheduled (s : ThreadSet) : Option Nat :=
  if ThreadSet.numThreadsIn s = 1 then some (ThreadSet.trailingZeros s) else none

/-! ## ThreadAwareAccountLocks state -/

/-- Account keys are opaque 32-byte identifiers; we model them as `Nat`. -/
abbrev Account := Nat

/-- Source `ThreadAwareAccountLocks`. `write_locks` maps an account to the
holding `(thread_id, count)`; `read_locks` maps an account to the holder
bitset together with the per-thread count array (`[u32; MAX_THREADS]`,
modelled as a function). `HashMap` is modelled as a function to `Option`. -/
structure ThreadAwareAccountLocks where
  num_threads : Nat
  sequential_queue_limit : Nat
  write_locks : Account → Option (Nat × Nat)
  read_locks : Account → Option (ThreadSet × (Nat → Nat))

/-- Source `schedulable_threads_with_read_only_handler`: shared core of the
two schedulability queries; `read_only_handler` decides the case where only
read locks are held. -/
def ThreadAwareAccountLocks.schedulable_threads_with_read_only_handler
    (self : ThreadAwareAccountLocks) (account : Account)
    (read_only_handler : ThreadSet → (Nat → Nat) → ThreadSet) : ThreadSet :=
  match self.write_locks account, self.read_locks account with
  | none, none => ThreadSet.any self.num_threads
  | none, some (thread_set, counts) => read_only_handler thread_set counts
  | some (thread_id, count), none =>
      if count = self.sequential_queue_limit then ThreadSet.noThreads
      else ThreadSet.only thread_id
  | some (thread_id, count), some (_, counts) =>
      if count + counts thread_id = self.sequential_queue_limit then ThreadSet.noThreads
      else ThreadSet.only thread_id

/-- Source `read_schedulable_threads`: from `any(num_threads)`, remove every
thread of the holder set whose count has reached the sequential limit. -/
def ThreadAwareAccountLocks.read_schedulable_threads
    (self : ThreadAwareAccountLocks) (account : Account) : ThreadSet :=
  self.schedulable_threads_with_read_only_handler account
    (fun thread_set counts =>
      (List.range 64).foldl
        (fun schedulable thread_id =>
          if thread_set.containsThread thread_id then
            if counts thread_id = self.sequential_queue_limit then
              schedulable.removeThread thread_id
            else schedulable
          else schedulable)
        (ThreadSet.any self.num_threads))

/-- Source `write_schedulable_threads`: only a sole read-holding thread below
the limit is schedulable when the account is read locked. -/
def ThreadAwareAccountLocks.write_schedulable_threads
    (self : ThreadAwareAccountLocks) (account : Account) : ThreadSet :=
  self.schedulable_threads_with_read_only_handler account
    (fun thread_set counts =>
      match thread_set.only_one_scheduled with
      | some thread_id =>
          if counts thread_id < self.sequential_queue_limit then ThreadSet.only thread_id
          else ThreadSet.noThreads
      | none => ThreadSet.noThreads)

/-- Source `accounts_schedulable_threads`: intersect, starting from
`any(num_threads)`, the write-schedulable sets of the writable accounts and
then the read-schedulable sets of the readable accounts. -/
def ThreadAwareAccountLocks.accounts_schedulable_threads
    (self : ThreadAwareAccountLocks)
    (write_account_locks read_account_locks : List Account) : ThreadSet :=
  let s := write_account_locks.foldl
    (fun s a => s &&& self.write_schedulable_threads a)
    (ThreadSet.any self.num_threads)
  read_account_locks.foldl (fun s a => s &&& self.read_schedulable_threads a) s

/-! ## Lock and unlock operations (fallible: `none` models a panic) -/

/-- Source `write_lock_account`: bump the entry (asserting same thread and the
sequential limit) or create it at depth 1, then assert any read set equals
`only(thread_id)`. -/
def ThreadAwareAccountLocks.write_lock_account
    (self : ThreadAwareAccountLocks) (account : Account) (thread_id : Nat) :
    Option ThreadAwareAccountLocks :=
  let step : Option (Nat × Nat) :=
    match self.write_locks account with
    | some (lock_thread_id, lock_count) =>
        if lock_thread_id = thread_id then
          if lock_count + 1 ≤ self.sequential_queue_limit then some (lock_thread_id, lock_count + 1)
          else none
        else none
    | none => some (thread_id, 1)
  step.bind fun v =>
    let self' := { self with
      write_locks := fun a => if a = account then some v else self.write_locks a }
    match self'.read_locks account with
    | some (read_thread_set, _) =>
        if read_thread_set = ThreadSet.only thread_id then some self' else none
    | none => some self'

/-- Source `write_unlock_account`: decrement (asserting the holding thread and
no u32 underflow), removing the entry when the count reaches zero. -/
def ThreadAwareAccountLocks.write_unlock_account
    (self : ThreadAwareAccountLocks) (account : Account) (thread_id : Nat) :
    Option ThreadAwareAccountLocks :=
  match self.write_locks account with
  | some (lock_thread_id, lock_count) =>
      if lock_thread_id = thread_id then
        match lock_count with
        | 0 => none
        | c + 1 =>
            let v : Option (Nat × Nat) := if c = 0 then none else some (lock_thread_id, c)
            some { self with
              write_locks := fun a => if a = account then v else self.write_locks a }
      else none
  | none => none

/-- Source `read_lock_account`: bump the holder's count (asserting membership
in the holder set) or create a fresh singleton entry, then assert any write
lock is held by the same thread. -/
def ThreadAwareAccountLocks.read_lock_account
    (self : ThreadAwareAccountLocks) (account : Account) (thread_id : Nat) :
    Option ThreadAwareAccountLocks :=
  let step : Option (ThreadSet × (Nat → Nat)) :=
    match self.read_locks account with
    | some (thread_set, lock_counts) =>
        if thread_set.containsThread thread_id then
          some (thread_set, fun t => if t = thread_id then lock_counts t + 1 else lock_counts t)
        else none
    | none =>
        some (ThreadSet.only thread_id, fun t => if t = thread_id then 1 else 0)
  step.bind fun v =>
    let self' := { self with
      read_locks := fun a => if a = account then some v else self.read_locks a }
    match self'.write_locks account with
    | some (write_thread_id, _) =>
        if write_thread_id = thread_id then some self' else none
    | none => some self'

/-- Source `read_unlock_account`: decrement the holder's count (asserting
membership and no u32 underflow); at zero clear the holder bit, and remove
the entry when the holder set empties. -/
def ThreadAwareAccountLocks.read_unlock_account
    (self : ThreadAwareAccountLocks) (account : Account) (thread_id : Nat) :
    Option ThreadAwareAccountLocks :=
  match self.read_locks account with
  | some (thread_set, lock_counts) =>
      if thread_set.containsThread thread_id then
        match lock_counts thread_id with
        | 0 => none
        | c + 1 =>
            let counts' := fun t => if t = thread_id then c else lock_counts t
            let v : Option (ThreadSet × (Nat → Nat)) :=
              if c = 0 then
                let thread_set' := thread_set.removeThread thread_id
                if thread_set' = ThreadSet.noThreads then none else some (thread_set', counts')
              else some (thread_set, counts')
            some { self with
              read_locks := fun a => if a = account then v else self.read_locks a }
      else none
  | none => none

/-- Source `lock_accounts` write phase, folded over the writable accounts. -/
def ThreadAwareAccountLocks.write_lock_all
    (self : ThreadAwareAccountLocks) (accounts : List Account) (thread_id : Nat) :
    Option ThreadAwareAccountLocks :=
  match accounts with
  | [] => some self
  | a :: rest =>
      (self.write_lock_account a thread_id).bind fun s => s.write_lock_all rest thread_id

/-- Source `lock_accounts` read phase, folded over the readable accounts. -/
def ThreadAwareAccountLocks.read_lock_all
    (self : ThreadAwareAccountLocks) (accounts : List Account) (thread_id : Nat) :
    Option ThreadAwareAccountLocks :=
  match accounts with
  | [] => some self
  | a :: rest =>
      (self.read_lock_account a thread_id).bind fun s => s.read_lock_all rest thread_id

/-- Source `lock_accounts`: write-lock every writable account, then read-lock
every readable account, on `thread_id`. -/
def ThreadAwareAccountLocks.lock_accounts
    (self : ThreadAwareAccountLocks)
    (write_account_locks read_account_locks : List Account) (thread_id : Nat) :
    Option ThreadAwareAccountLocks :=
  (self.write_lock_all write_account_locks thread_id).bind fun s =>
    s.read_lock_all read_account_locks thread_id

/-- Unlock write phase: `write_unlock_account` on each account, in order. -/
def ThreadAwareAccountLocks.write_unlock_all
    (self : ThreadAwareAccountLocks) (accounts : List Account) (thread_id : Nat) :
    Option ThreadAwareAccountLocks :=
  match accounts with
  | [] => some self
  | a :: rest =>
      (self.write_unlock_account a thread_id).bind fun s => s.write_unlock_all rest thread_id

/-- Unlock read phase: `read_unlock_account` on each account, in order. -/
def ThreadAwareAccountLocks.read_unlock_all
    (self : ThreadAwareAccountLocks) (accounts : List Account) (thread_id : Nat) :
    Option ThreadAwareAccountLocks :=
  match accounts with
  | [] => some self
  | a :: rest =>
      (self.read_unlock_account a thread_id).bind fun s => s.read_unlock_all rest thread_id

/-- Unlocking the accounts of a transaction, mirroring `lock_accounts`:
write-unlock every writable account, then read-unlock every readable one. -/
def ThreadAwareAccountLocks.unlock_accounts
    (self : ThreadAwareAccountLocks)
    (write_account_locks read_account_locks : List Account) (thread_id : Nat) :
    Option ThreadAwareAccountLocks :=
  (self.write_unlock_all write_account_locks thread_id).bind fun s =>
    s.read_unlock_all read_account_locks thread_id

/-! ## Specification table (spec.md section 4.2) -/

/-- Modelled from the spec: per-account write-schedulable column of the
section 4.2 table (`any(N)` / `only(w) if depth < L else none` /
`only(t) if R={t} and count[t]<L else none` /
`only(w) if write_depth+read_count[w] < L else none`). -/
def specWriteSchedulable (self : ThreadAwareAccountLocks) (account : Account) : ThreadSet :=
  match self.write_locks account, self.read_locks account with
  | none, none => ThreadSet.any self.num_threads
  | some (w, depth), none =>
      if depth < self.sequential_queue_limit then ThreadSet.only w else ThreadSet.noThreads
  | none, some (holders, counts) =>
      match holders.only_one_scheduled with
      | some t =>
          if counts t < self.sequential_queue_limit then ThreadSet.only t
          else ThreadSet.noThreads
      | none => ThreadSet.noThreads
  | some (w, depth), some (_, counts) =>
      if depth + counts w < self.sequential_queue_limit then ThreadSet.only w
      else ThreadSet.noThreads

/-- Modelled from the spec: per-account read-schedulable column of the
section 4.2 table (`any(N)` / `only(w)` / `any(N) minus the threads at the
limit` / `only(w)`). -/
def specReadSchedulable (self : ThreadAwareAccountLocks) (account : Account) : ThreadSet :=
  match self.write_locks account, self.read_locks account with
  | none, none => ThreadSet.any self.num_threads
  | some (w, _), none => ThreadSet.only w
  | none, some (_, counts) =>
      (List.range 64).foldl
        (fun s t => if counts t = self.sequential_queue_limit then s.removeThread t else s)
        (ThreadSet.any self.num_threads)
  | some (w, _), some _ => ThreadSet.only w

/-- The spec-table read-schedulable column amended as the code forces: the
write-locked rows are schedulable for reads only below the sequential limit
(`only(w)` if the outstanding depth, plus same-thread read count in the mixed
row, is under `L`; `none` otherwise). The read-only rows are unchanged. -/
def specReadSchedulableAmended (self : ThreadAwareAccountLocks) (account : Account) : ThreadSet :=
  match self.write_locks account, self.read_locks account with
  | none, none => ThreadSet.any self.num_threads
  | some (w, depth), none =>
      if depth < self.sequential_queue_limit then ThreadSet.only w else ThreadSet.noThreads
  | none, some (_, counts) =>
      (List.range 64).foldl
        (fun s t => if counts t = self.sequential_queue_limit then s.removeThread t else s)
        (ThreadSet.any self.num_threads)
  | some (w, depth), some (_, counts) =>
      if depth + counts w < self.sequential_queue_limit then ThreadSet.only w
      else ThreadSet.noThreads

/-- Modelled from the spec: `accounts_schedulable_threads` as the section 4.2
intersection, starting from `any(N)`, over the table columns. -/
def specSchedulableThreads (self : ThreadAwareAccountLocks)
    (write_account_locks read_account_locks : List Account) : ThreadSet :=
  let s := write_account_locks.foldl
    (fun s a => s &&& specWriteSchedulable self a)
    (ThreadSet.any self.num_threads)
  read_account_locks.foldl (fun s a => s &&& specReadSchedulable self a) s

/-- The section 4.2 intersection built from the amended read column. -/
def specSchedulableThreadsAmended (self : ThreadAwareAccountLocks)
    (write_account_locks read_account_locks : List Account) : ThreadSet :=
  let s := write_account_locks.foldl
    (fun s a => s &&& specWriteSchedulable self a)
    (ThreadSet.any self.num_threads)
  read_account_locks.foldl (fun s a => s &&& specReadSchedulableAmended self a) s

/-- The data-model invariants of spec.md section 3 for the lock table: write
depths are in `[1, L]`; a read holder set is exactly the threads with a
positive count, counts are at most `L`; and in the mixed case the
outstanding depth plus the holder's read count is at most `L`. -/
structure TAALWellFormed (self : ThreadAwareAccountLocks) : Prop where
  limit_pos : 1 ≤ self.sequential_queue_limit
  write_bounds : ∀ a t c, self.write_locks a = some (t, c) →
    1 ≤ c ∧ c ≤ self.sequential_queue_limit
  read_holders : ∀ a ts counts, self.read_locks a = some (ts, counts) →
    ∀ t, ts.containsThread t = true ↔ 1 ≤ counts t
  read_bounds : ∀ a ts counts, self.read_locks a = some (ts, counts) →
    ∀ t, counts t ≤ self.sequential_queue_limit
  mixed_bounds : ∀ a w d ts counts, self.write_locks a = some (w, d) →
    self.read_locks a = some (ts, counts) → d + counts w ≤ self.sequential_queue_limit

/-- A concrete lock table refuting claim C2: two threads, sequential limit 1,
account 0 write-locked once (depth = limit) by thread 0. -/
def c2State : ThreadAwareAccountLocks where
  num_threads := 2
  sequential_queue_limit := 1
  write_locks := fun a => if a = 0 then some (0, 1) else none
  read_locks := fun _ => none

/-- A lock table with no outstanding locks (used as a concrete instance). -/
def emptyLockTable (n limit : Nat) : ThreadAwareAccountLocks where
  num_threads := n
  sequential_queue_limit := limit
  write_locks := fun _ => none
  read_locks := fun _ => none

lemma write_schedulable_eq_spec (self : ThreadAwareAccountLocks)
    (h : TAALWellFormed self) (a : Account) :
    self.write_schedulable_threads a = specWriteSchedulable self a := by
  unfold ThreadAwareAccountLocks.write_schedulable_threads
    ThreadAwareAccountLocks.schedulable_threads_with_read_only_handler specWriteSchedulable
  cases hw : self.write_locks a with
  | none =>
      cases hr : self.read_locks a with
      | none => rfl
      | some v => rfl
  | some v =>
      obtain ⟨t, c⟩ := v
      cases hr : self.read_locks a with
      | none =>
          obtain ⟨h1, h2⟩ := TAALWellFormed.write_bounds h a t c hw
          by_cases hc : c = self.sequential_queue_limit
          · simp [hc]
          · simp [hc, Nat.lt_of_le_of_ne h2 hc]
      | some v' =>
          obtain ⟨ts, counts⟩ := v'
          have hb := TAALWellFormed.mixed_bounds h a t c ts counts hw hr
          by_cases hc : c + counts t = self.sequential_queue_limit
          · simp [hc]
          · simp [hc, Nat.lt_of_le_of_ne hb hc]

lemma read_schedulable_eq_spec_amended (self : ThreadAwareAccountLocks)
    (h : TAALWellFormed self) (a : Account) :
    self.read_schedulable_threads a = specReadSchedulableAmended self a := by
  unfold ThreadAwareAccountLocks.read_schedulable_threads
    ThreadAwareAccountLocks.schedulable_threads_with_read_only_handler specReadSchedulableAmended
  cases hw : self.write_locks a with
  | none =>
      cases hr : self.read_locks a with
      | none => rfl
      | some v =>
          obtain ⟨ts, counts⟩ := v
          refine List.foldl_ext _ _ _ (fun s t _ => ?_)
          by_cases hc : counts t = self.sequential_queue_limit
          · have hpos : 1 ≤ counts t := hc ▸ TAALWellFormed.limit_pos h
            have hmem : ts.containsThread t = true :=
              ((TAALWellFormed.read_holders h a ts counts hr) t).mpr hpos
            simp [hc, hmem]
          · simp [hc]
  | some v =>
      obtain ⟨t, c⟩ := v
      cases hr : self.read_locks a with
      | none =>
          obtain ⟨h1, h2⟩ := TAALWellFormed.write_bounds h a t c hw
          by_cases hc : c = self.sequential_queue_limit
          · simp [hc]
          · simp [hc, Nat.lt_of_le_of_ne h2 hc]
      | some v' =>
          obtain ⟨ts, counts⟩ := v'
          have hb := TAALWellFormed.mixed_bounds h a t c ts counts hw hr
          by_cases hc : c + counts t = self.sequential_queue_limit
          · simp [hc]
          · simp [hc, Nat.lt_of_le_of_ne hb hc]

/-- C2 counterexample: with two threads and sequential limit 1, account 0
write-locked at full depth by thread 0, the code's read-schedulable set for
account 0 is empty while the section 4.2 table says `only(0)`; hence
`accounts_schedulable_threads` differs from the spec-table intersection. -/
theorem c2_schedulable_table_counterexample :
    ThreadAwareAccountLocks.accounts_schedulable_threads c2State [] [0] ≠
        specSchedulableThreads c2State [] [0] ∧
      ThreadAwareAccountLocks.read_schedulable_threads c2State 0 = ThreadSet.noThreads ∧
      specReadSchedulable c2State 0 = ThreadSet.only 0 :=
  ⟨by decide, by decide, by decide⟩

/-- C2 (amended): on every lock table satisfying the section 3 data-model
invariants, `accounts_schedulable_threads` equals the intersection, starting
from `any(N)`, of the section 4.2 table in which the read-schedulable column
of the write-locked rows is amended to apply the depth-versus-L test
(`only(w)` if depth (plus the holder's read count in the mixed row) is below
L, else `none`). -/
theorem c2_accounts_schedulable_matches_amended_table
    (self : ThreadAwareAccountLocks) (h : TAALWellFormed self)
    (write_account_locks read_account_locks : List Account) :
    self.accounts_schedulable_threads write_account_locks read_account_locks =
      specSchedulableThreadsAmended self write_account_locks read_account_locks := by
  unfold ThreadAwareAccountLocks.accounts_schedulable_threads specSchedulableThreadsAmended
  have hw : (fun s a => s &&& self.write_schedulable_threads a) =
      fun s a => s &&& specWriteSchedulable self a :=
    funext fun s => funext fun a => by rw [write_schedulable_eq_spec self h a]
  have hr : (fun s a => s &&& self.read_schedulable_threads a) =
      fun s a => s &&& specReadSchedulableAmended self a :=
    funext fun s => funext fun a => by rw [read_schedulable_eq_spec_amended self h a]
  rw [hw, hr]

/-- Witness for C2's amended theorem at a concrete lock table. -/
theorem c2_accounts_schedulable_matches_amended_table_witness :
    (emptyLockTable 4 2).accounts_schedulable_threads [0, 1] [2] =
      specSchedulableThreadsAmended (emptyLockTable 4 2) [0, 1] [2] := by
  apply c2_accounts_schedulable_matches_amended_table
  constructor
  · decide
  · intro a t c hw
    simp [emptyLockTable] at hw
  · intro a ts counts hr
    simp [emptyLockTable] at hr
  · intro a ts counts hr
    simp [emptyLockTable] at hr
  · intro a w d ts counts hw hr
    simp [emptyLockTable] at hw

/-- C5: the source accepts `num_threads = MAX_THREADS = 64` in
`ThreadAwareAccountLocks::new`, but `ThreadSet::any(64)` computes
`(1u64 << 64) - 1`, whose shift overflows: under checked (debug) semantics
it panics, and under release semantics it yields the empty set instead of
the claimed low 64 bits. -/
theorem c5_threadset_any_overflows_at_max_threads :
    ThreadSet.anyU64Checked MAX_THREADS = none ∧
      ThreadSet.anyU64Release MAX_THREADS = ThreadSet.noThreads ∧
      ThreadSet.anyU64Release MAX_THREADS ≠ 2 ^ 64 - 1 ∧
      (∀ n, n < 64 → ThreadSet.anyU64Checked n = some (ThreadSet.any n)) :=
  ⟨by decide, by decide, by decide, fun n hn => by simp [ThreadSet.anyU64Checked, hn, ThreadSet.any]⟩

/-! ## Round-trip of lock_accounts and unlock_accounts (claim C8) -/

/-- Effect of a successful `write_lock_account` on the locked account's entry. -/
def wBump (t : Nat) : Option (Nat × Nat) → Option (Nat × Nat)
  | none => some (t, 1)
  | some (tid, c) => some (tid, c + 1)

/-- Effect of a successful `read_lock_account` on the locked account's entry. -/
def rBump (t : Nat) : Option (ThreadSet × (Nat → Nat)) → Option (ThreadSet × (Nat → Nat))
  | none => some (ThreadSet.only t, fun u => if u = t then 1 else 0)
  | some (ts, c) => some (ts, fun u => if u = t then c u + 1 else c u)

/-- Effect of a successful `read_unlock_account` on an entry `(ts, cnt)` whose
count for `t` was `c + 1`. -/
def rDrop (t : Nat) (ts : ThreadSet) (cnt : Nat → Nat) (c : Nat) :
    Option (ThreadSet × (Nat → Nat)) :=
  let counts' := fun u => if u = t then c else cnt u
  if c = 0 then
    let ts' := ts.removeThread t
    if ts' = ThreadSet.noThreads then none else some (ts', counts')
  else some (ts, counts')

lemma write_lock_account_char {st s1 : ThreadAwareAccountLocks} {a : Account} {t : Nat}
    (h : st.write_lock_account a t = some s1) :
    s1.num_threads = st.num_threads ∧
      s1.sequential_queue_limit = st.sequential_queue_limit ∧
      s1.read_locks = st.read_locks ∧
      (∀ x, x ≠ a → s1.write_locks x = st.write_locks x) ∧
      s1.write_locks a = wBump t (st.write_locks a) ∧
      (∀ tid c, st.write_locks a = some (tid, c) → tid = t) := by
  unfold ThreadAwareAccountLocks.write_lock_account at h
  simp only [Option.bind_eq_bind] at h
  split at h
  case _ tid0 c0 heqw =>
    rw [heqw]
    split at h
    case isTrue htid =>
      split at h
      case isTrue hlim =>
        simp only [Option.some_bind] at h
        split at h
        case _ ts cnt heqr =>
          split at h
          case isTrue hts =>
            obtain rfl := (Option.some.inj h).symm
            subst htid
            refine ⟨rfl, rfl, rfl, fun x hx => by simp [hx], by simp [wBump], ?_⟩
            intro tid c hc
            obtain ⟨h1, _⟩ := Prod.mk.inj (Option.some.inj hc)
            omega
          case isFalse hts => cases h
        case _ heqr =>
          obtain rfl := (Option.some.inj h).symm
          subst htid
          refine ⟨rfl, rfl, rfl, fun x hx => by simp [hx], by simp [wBump], ?_⟩
          intro tid c hc
          obtain ⟨h1, _⟩ := Prod.mk.inj (Option.some.inj hc)
          omega
      case isFalse hlim => cases h
    case isFalse htid => cases h
  case _ heqw =>
    rw [heqw]
    simp only [Option.some_bind] at h
    split at h
    case _ ts cnt heqr =>
      split at h
      case isTrue hts =>
        obtain rfl := (Option.some.inj h).symm
        refine ⟨rfl, rfl, rfl, fun x hx => by simp [hx], by simp [wBump], ?_⟩
        intro tid c hc
        cases hc
      case isFalse hts => cases h
    case _ heqr =>
      obtain rfl := (Option.some.inj h).symm
      refine ⟨rfl, rfl, rfl, fun x hx => by simp [hx], by simp [wBump], ?_⟩
      intro tid c hc
      cases hc

lemma read_lock_account_char {st s1 : ThreadAwareAccountLocks} {a : Account} {t : Nat}
    (h : st.read_lock_account a t = some s1) :
    s1.num_threads = st.num_threads ∧
      s1.sequential_queue_limit = st.sequential_queue_limit ∧
      s1.write_locks = st.write_locks ∧
      (∀ x, x ≠ a → s1.read_locks x = st.read_locks x) ∧
      s1.read_locks a = rBump t (st.read_locks a) ∧
      (∀ ts cnt, st.read_locks a = some (ts, cnt) → ts.containsThread t = true) := by
  unfold ThreadAwareAccountLocks.read_lock_account at h
  simp only [Option.bind_eq_bind] at h
  split at h
  case _ ts0 cnt0 heqr =>
    rw [heqr]
    split at h
    case isTrue hmem =>
      simp only [Option.some_bind] at h
      split at h
      case _ wtid wc heqw =>
        split at h
        case isTrue hwt =>
          obtain rfl := (Option.some.inj h).symm
          refine ⟨rfl, rfl, rfl, fun x hx => by simp [hx], by simp [rBump], ?_⟩
          intro ts cnt hc
          obtain ⟨h1, _⟩ := Prod.mk.inj (Option.some.inj hc)
          exact h1 ▸ hmem
        case isFalse hwt => cases h
      case _ heqw =>
        obtain rfl := (Option.some.inj h).symm
        refine ⟨rfl, rfl, rfl, fun x hx => by simp [hx], by simp [rBump], ?_⟩
        intro ts cnt hc
        obtain ⟨h1, _⟩ := Prod.mk.inj (Option.some.inj hc)
        exact h1 ▸ hmem
    case isFalse hmem => cases h
  case _ heqr =>
    rw [heqr]
    simp only [Option.some_bind] at h
    split at h
    case _ wtid wc heqw =>
      split at h
      case isTrue hwt =>
        obtain rfl := (Option.some.inj h).symm
        refine ⟨rfl, rfl, rfl, fun x hx => by simp [hx], by simp [rBump], ?_⟩
        intro ts cnt hc
        cases hc
      case isFalse hwt => cases h
    case _ heqw =>
      obtain rfl := (Option.some.inj h).symm
      refine ⟨rfl, rfl, rfl, fun x hx => by simp [hx], by simp [rBump], ?_⟩
      intro ts cnt hc
      cases hc

lemma write_unlock_account_eq {st : ThreadAwareAccountLocks} {a : Account} {t c : Nat}
    (h : st.write_locks a = some (t, c + 1)) :
    st.write_unlock_account a t = some { st with
      write_locks := fun x =>
        if x = a then (if c = 0 then none else some (t, c)) else st.write_locks x } := by
  unfold ThreadAwareAccountLocks.write_unlock_account
  rw [h]
  simp

lemma read_unlock_account_eq {st : ThreadAwareAccountLocks} {a : Account} {t c : Nat}
    {ts : ThreadSet} {cnt : Nat → Nat}
    (h : st.read_locks a = some (ts, cnt)) (hm : ts.containsThread t = true)
    (hc : cnt t = c + 1) :
    st.read_unlock_account a t = some { st with
      read_locks := fun x => if x = a then rDrop t ts cnt c else st.read_locks x } := by
  unfold ThreadAwareAccountLocks.read_unlock_account
  rw [h]
  simp only [hm, if_pos, hc, rDrop]

lemma write_lock_all_char {t : Nat} :
    ∀ {l : List Account} {st st' : ThreadAwareAccountLocks}, l.Nodup →
      st.write_lock_all l t = some st' →
      st'.num_threads = st.num_threads ∧
        st'.sequential_queue_limit = st.sequential_queue_limit ∧
        st'.read_locks = st.read_locks ∧
        (∀ x, x ∉ l → st'.write_locks x = st.write_locks x) ∧
        (∀ x ∈ l, st'.write_locks x = wBump t (st.write_locks x) ∧
          (∀ tid c, st.write_locks x = some (tid, c) → tid = t))
  | [], st, st', _, h => by
      simp only [ThreadAwareAccountLocks.write_lock_all] at h
      obtain rfl := (Option.some.inj h).symm
      exact ⟨rfl, rfl, rfl, fun x _ => rfl, fun x hx => absurd hx (List.not_mem_nil x)⟩
  | a :: l, st, st', hnd, h => by
      simp only [ThreadAwareAccountLocks.write_lock_all] at h
      obtain ⟨s1, h1, h2⟩ := Option.bind_eq_some.mp h
      obtain ⟨hn, hq, hr, hother, hself, hcond⟩ := write_lock_account_char h1
      obtain ⟨hnd1, hnd2⟩ := List.nodup_cons.mp hnd
      obtain ⟨ihn, ihq, ihr, ihother, ihmem⟩ := write_lock_all_char hnd2 h2
      refine ⟨ihn.trans hn, ihq.trans hq, ihr.trans hr, ?_, ?_⟩
      · intro x hx
        have hxa : x ≠ a := fun hh => hx (hh ▸ List.mem_cons_self a l)
        have hxl : x ∉ l := fun hh => hx (List.mem_cons_of_mem a hh)
        rw [ihother x hxl, hother x hxa]
      · intro x hx
        rcases List.mem_cons.mp hx with rfl | hxl
        · exact ⟨by rw [ihother x hnd1, hself], hcond⟩
        · have hxa : x ≠ a := fun hh => hnd1 (hh ▸ hxl)
          obtain ⟨ih1, ih2⟩ := ihmem x hxl
          exact ⟨by rw [ih1, hother x hxa],
            fun tid c hc => ih2 tid c ((hother x hxa).symm ▸ hc)⟩

lemma read_lock_all_char {t : Nat} :
    ∀ {l : List Account} {st st' : ThreadAwareAccountLocks}, l.Nodup →
      st.read_lock_all l t = some st' →
      st'.num_threads = st.num_threads ∧
        st'.sequential_queue_limit = st.sequential_queue_limit ∧
        st'.write_locks = st.write_locks ∧
        (∀ x, x ∉ l → st'.read_locks x = st.read_locks x) ∧
        (∀ x ∈ l, st'.read_locks x = rBump t (st.read_locks x) ∧
          (∀ ts cnt, st.read_locks x = some (ts, cnt) → ts.containsThread t = true))
  | [], st, st', _, h => by
      simp only [ThreadAwareAccountLocks.read_lock_all] at h
      obtain rfl := (Option.some.inj h).symm
      exact ⟨rfl, rfl, rfl, fun x _ => rfl, fun x hx => absurd hx (List.not_mem_nil x)⟩
  | a :: l, st, st', hnd, h => by
      simp only [ThreadAwareAccountLocks.read_lock_all] at h
      obtain ⟨s1, h1, h2⟩ := Option.bind_eq_some.mp h
      obtain ⟨hn, hq, hw, hother, hself, hcond⟩ := read_lock_account_char h1
      obtain ⟨hnd1, hnd2⟩ := List.nodup_cons.mp hnd
      obtain ⟨ihn, ihq, ihw, ihother, ihmem⟩ := read_lock_all_char hnd2 h2
      refine ⟨ihn.trans hn, ihq.trans hq, ihw.trans hw, ?_, ?_⟩
      · intro x hx
        have hxa : x ≠ a := fun hh => hx (hh ▸ List.mem_cons_self a l)
        have hxl : x ∉ l := fun hh => hx (List.mem_cons_of_mem a hh)
        rw [ihother x hxl, hother x hxa]
      · intro x hx
        rcases List.mem_cons.mp hx with rfl | hxl
        · exact ⟨by rw [ihother x hnd1, hself], hcond⟩
        · have hxa : x ≠ a := fun hh => hnd1 (hh ▸ hxl)
          obtain ⟨ih1, ih2⟩ := ihmem x hxl
          exact ⟨by rw [ih1, hother x hxa],
            fun ts cnt hc => ih2 ts cnt ((hother x hxa).symm ▸ hc)⟩

lemma write_unlock_all_eq {t : Nat} :
    ∀ {l : List Account} {st : ThreadAwareAccountLocks}, l.Nodup →
      (∀ x ∈ l, ∃ c, st.write_locks x = some (t, c + 1)) →
      ∃ st', st.write_unlock_all l t = some st' ∧
        st'.num_threads = st.num_threads ∧
        st'.sequential_queue_limit = st.sequential_queue_limit ∧
        st'.read_locks = st.read_locks ∧
        (∀ x, x ∉ l → st'.write_locks x = st.write_locks x) ∧
        (∀ x ∈ l, ∀ c, st.write_locks x = some (t, c + 1) →
          st'.write_locks x = if c = 0 then none else some (t, c))
  | [], st, _, _ =>
      ⟨st, by simp only [ThreadAwareAccountLocks.write_unlock_all], rfl, rfl, rfl,
        fun _ _ => rfl, fun x hx => absurd hx (List.not_mem_nil x)⟩
  | a :: l, st, hnd, hpre => by
      obtain ⟨c, hc⟩ := hpre a (List.mem_cons_self a l)
      have h1 := write_unlock_account_eq hc
      obtain ⟨hnd1, hnd2⟩ := List.nodup_cons.mp hnd
      have hs1w : ∀ x, x ≠ a →
          (if x = a then (if c = 0 then none else some (t, c)) else st.write_locks x) =
            st.write_locks x := fun x hx => if_neg hx
      have hpre' : ∀ x ∈ l,
          ∃ c', (if x = a then (if c = 0 then none else some (t, c)) else st.write_locks x) =
            some (t, c' + 1) := by
        intro x hx
        obtain ⟨c', hcx⟩ := hpre x (List.mem_cons_of_mem a hx)
        have hxa : x ≠ a := fun hh => hnd1 (hh ▸ hx)
        exact ⟨c', by rw [if_neg hxa]; exact hcx⟩
      obtain ⟨st', ih, ihn, ihq, ihr, ihother, ihmem⟩ :=
        @write_unlock_all_eq t l { st with write_locks := fun x =>
          if x = a then (if c = 0 then none else some (t, c)) else st.write_locks x }
          hnd2 hpre'
      refine ⟨st', ?_, ihn, ihq, ihr, ?_, ?_⟩
      · simp only [ThreadAwareAccountLocks.write_unlock_all]
        rw [h1, Option.some_bind]
        exact ih
      · intro x hx
        have hxa : x ≠ a := fun hh => hx (hh ▸ List.mem_cons_self a l)
        have hxl : x ∉ l := fun hh => hx (List.mem_cons_of_mem a hh)
        rw [ihother x hxl]
        exact hs1w x hxa
      · intro x hx c' hcx
        rcases List.mem_cons.mp hx with rfl | hxl
        · have : c' = c := by
            rw [hc] at hcx
            obtain ⟨_, h2⟩ := Prod.mk.inj (Option.some.inj hcx)
            omega
          subst this
          rw [ihother x hnd1]
          simp
        · have hxa : x ≠ a := fun hh => hnd1 (hh ▸ hxl)
          exact ihmem x hxl c' (by simpa [hxa] using hcx)

lemma read_unlock_all_eq {t : Nat} :
    ∀ {l : List Account} {st : ThreadAwareAccountLocks}, l.Nodup →
      (∀ x ∈ l, ∃ ts cnt c, st.read_locks x = some (ts, cnt) ∧
        ts.containsThread t = true ∧ cnt t = c + 1) →
      ∃ st', st.read_unlock_all l t = some st' ∧
        st'.num_threads = st.num_threads ∧
        st'.sequential_queue_limit = st.sequential_queue_limit ∧
        st'.write_locks = st.write_locks ∧
        (∀ x, x ∉ l → st'.read_locks x = st.read_locks x) ∧
        (∀ x ∈ l, ∀ ts cnt c, st.read_locks x = some (ts, cnt) →
          ts.containsThread t = true → cnt t = c + 1 →
          st'.read_locks x = rDrop t ts cnt c)
  | [], st, _, _ =>
      ⟨st, by simp only [ThreadAwareAccountLocks.read_unlock_all], rfl, rfl, rfl,
        fun _ _ => rfl, fun x hx => absurd hx (List.not_mem_nil x)⟩
  | a :: l, st, hnd, hpre => by
      obtain ⟨ts, cnt, c, hc, hm, hcnt⟩ := hpre a (List.mem_cons_self a l)
      have h1 := read_unlock_account_eq hc hm hcnt
      obtain ⟨hnd1, hnd2⟩ := List.nodup_cons.mp hnd
      have hs1r : ∀ x, x ≠ a →
          (if x = a then rDrop t ts cnt c else st.read_locks x) = st.read_locks x :=
        fun x hx => if_neg hx
      have hpre' : ∀ x ∈ l,
          ∃ ts' cnt' c', (if x = a then rDrop t ts cnt c else st.read_locks x) =
            some (ts', cnt') ∧ ts'.containsThread t = true ∧ cnt' t = c' + 1 := by
        intro x hx
        obtain ⟨ts', cnt', c', hcx, hm', hcnt'⟩ := hpre x (List.mem_cons_of_mem a hx)
        have hxa : x ≠ a := fun hh => hnd1 (hh ▸ hx)
        exact ⟨ts', cnt', c', by rw [if_neg hxa]; exact hcx, hm', hcnt'⟩
      obtain ⟨st', ih, ihn, ihq, ihw, ihother, ihmem⟩ :=
        @read_unlock_all_eq t l ({ st with read_locks := fun x =>
          if x = a then (rDrop t ts cnt c) else (st.read_locks x) })
          hnd2 hpre'
      refine ⟨st', ?_, ihn, ihq, ihw, ?_, ?_⟩
      · simp only [ThreadAwareAccountLocks.read_unlock_all]
        rw [h1, Option.some_bind]
        exact ih
      · intro x hx
        have hxa : x ≠ a := fun hh => hx (hh ▸ List.mem_cons_self a l)
        have hxl : x ∉ l := fun hh => hx (List.mem_cons_of_mem a hh)
        rw [ihother x hxl]
        exact hs1r x hxa
      · intro x hx ts' cnt' c' hcx hm' hcnt'
        rcases List.mem_cons.mp hx with rfl | hxl
        · obtain ⟨e1, e2⟩ := Prod.mk.inj (Option.some.inj (hc.symm.trans hcx))
          subst e1
          subst e2
          have : c' = c := by omega
          subst this
          rw [ihother x hnd1]
          simp
        · have hxa : x ≠ a := fun hh => hnd1 (hh ▸ hxl)
          exact ihmem x hxl ts' cnt' c' (by simpa [hxa] using hcx) hm' hcnt'

lemma containsThread_only_self (t : Nat) : (ThreadSet.only t).containsThread t = true := by
  unfold ThreadSet.containsThread ThreadSet.only
  have hand : (1 <<< t : Nat) &&& (1 <<< t) = 1 <<< t := by simp
  rw [hand]
  simp only [bne_iff_ne, ne_eq, Nat.one_shiftLeft]
  exact pow_ne_zero t (by norm_num)

lemma removeThread_only_self {t : Nat} (ht : t < 64) :
    (ThreadSet.only t).removeThread t = ThreadSet.noThreads := by
  unfold ThreadSet.only ThreadSet.removeThread ThreadSet.noThreads
  apply Nat.eq_of_testBit_eq
  intro i
  simp only [Nat.testBit_land, Nat.testBit_xor, Nat.zero_testBit, Nat.one_shiftLeft,
    Nat.testBit_two_pow_sub_one]
  by_cases hit : i = t
  · subst hit
    simp [Nat.testBit_two_pow_self, ht]
  · simp [Nat.testBit_two_pow_of_ne (fun hh => hit hh.symm)]

lemma taal_ext {s1 s2 : ThreadAwareAccountLocks}
    (h1 : s1.num_threads = s2.num_threads)
    (h2 : s1.sequential_queue_limit = s2.sequential_queue_limit)
    (h3 : s1.write_locks = s2.write_locks)
    (h4 : s1.read_locks = s2.read_locks) : s1 = s2 := by
  cases s1
  cases s2
  simp_all

/-- C8: on a well-formed lock table, locking duplicate-free write and read
account lists on a thread (when it succeeds) followed by write-unlocking the
write list and read-unlocking the read list on the same thread restores the
lock table to structural equality with its original state. -/
theorem c8_lock_unlock_roundtrip
    (st st' : ThreadAwareAccountLocks) (hwf : TAALWellFormed st)
    (ws rs : List Account) (t : Nat) (ht : t < 64)
    (hndw : ws.Nodup) (hndr : rs.Nodup)
    (hlock : st.lock_accounts ws rs t = some st') :
    st'.unlock_accounts ws rs t = some st := by
  obtain ⟨s1, hW, hR⟩ := Option.bind_eq_some.mp hlock
  obtain ⟨wn, wq, wrl, wother, wmem⟩ := write_lock_all_char hndw hW
  obtain ⟨rn, rq, rwl, rother, rmem⟩ := read_lock_all_char hndr hR
  have hpreW : ∀ x ∈ ws, ∃ c, st'.write_locks x = some (t, c + 1) := by
    intro x hx
    obtain ⟨hb, hcond⟩ := wmem x hx
    rw [rwl, hb]
    cases hwx : st.write_locks x with
    | none => exact ⟨0, by simp [wBump]⟩
    | some v =>
        obtain ⟨tid, c⟩ := v
        have htid : tid = t := hcond tid c hwx
        exact ⟨c, by rw [htid]; simp [wBump]⟩
  obtain ⟨st2, hU1, un, uq, url, uother, umem⟩ := write_unlock_all_eq hndw hpreW
  have hpreR : ∀ x ∈ rs, ∃ ts cnt c, st2.read_locks x = some (ts, cnt) ∧
      ts.containsThread t = true ∧ cnt t = c + 1 := by
    intro x hx
    obtain ⟨hb, hcond⟩ := rmem x hx
    rw [url, hb, wrl]
    cases hrx : st.read_locks x with
    | none =>
        exact ⟨ThreadSet.only t, fun u => if u = t then 1 else 0, 0, by simp [rBump],
          containsThread_only_self t, by simp⟩
    | some v =>
        obtain ⟨ts, cnt⟩ := v
        have hmem : ts.containsThread t = true := hcond ts cnt (by rw [wrl]; exact hrx)
        exact ⟨ts, fun u => if u = t then cnt u + 1 else cnt u, cnt t, by simp [rBump],
          hmem, by simp⟩
  obtain ⟨st3, hU2, vn, vq, vwl, vother, vmem⟩ := read_unlock_all_eq hndr hpreR
  have hfinal : st3 = st := by
    apply taal_ext
    · rw [vn, un, rn, wn]
    · rw [vq, uq, rq, wq]
    · rw [vwl]
      funext x
      by_cases hx : x ∈ ws
      · obtain ⟨hb, hcond⟩ := wmem x hx
        cases hwx : st.write_locks x with
        | none =>
            have hst' : st'.write_locks x = some (t, 0 + 1) := by
              rw [rwl, hb, hwx]
              simp [wBump]
            rw [umem x hx 0 hst']
            simp [hwx]
        | some v =>
            obtain ⟨tid, c⟩ := v
            have htid : tid = t := hcond tid c hwx
            have hst' : st'.write_locks x = some (t, c + 1) := by
              rw [rwl, hb, hwx, htid]
              simp [wBump]
            obtain ⟨hc1, _⟩ := TAALWellFormed.write_bounds hwf x tid c hwx
            rw [umem x hx c hst', htid, if_neg (by omega : ¬ c = 0)]
      · rw [uother x hx, rwl, wother x hx]
    · funext x
      by_cases hx : x ∈ rs
      · obtain ⟨hb, hcond⟩ := rmem x hx
        cases hrx : st.read_locks x with
        | none =>
            have hst2 : st2.read_locks x =
                some (ThreadSet.only t, fun u => if u = t then 1 else 0) := by
              rw [url, hb, wrl, hrx]
              simp [rBump]
            rw [vmem x hx _ _ 0 hst2 (containsThread_only_self t) (by simp)]
            simp only [rDrop, if_pos rfl]
            rw [removeThread_only_self ht]
            simp
        | some v =>
            obtain ⟨ts, cnt⟩ := v
            have hmem : ts.containsThread t = true := hcond ts cnt (by rw [wrl]; exact hrx)
            have hst2 : st2.read_locks x =
                some (ts, fun u => if u = t then cnt u + 1 else cnt u) := by
              rw [url, hb, wrl, hrx]
              simp [rBump]
            have hcnt1 : 1 ≤ cnt t := (TAALWellFormed.read_holders hwf x ts cnt hrx t).mp hmem
            have hbump : (fun u => if u = t then cnt u + 1 else cnt u) t = (cnt t - 1) + 1 + 1 := by
              simp
              omega
            rw [vmem x hx ts _ (cnt t - 1 + 1) hst2 hmem hbump]
            simp only [rDrop]
            rw [if_neg (by omega : ¬ cnt t - 1 + 1 = 0)]
            simp only [Option.some.injEq, Prod.mk.injEq]
            refine ⟨trivial, funext fun u => ?_⟩
            by_cases hu : u = t
        
            · simp [hu]
              omega
            · simp [hu]
      · rw [vother x hx, url, rother x hx, wrl]
  unfold ThreadAwareAccountLocks.unlock_accounts
  rw [hU1, Option.some_bind, hU2, hfinal]

lemma emptyLockTable_wf (n limit : Nat) (h : 1 ≤ limit) :
    TAALWellFormed (emptyLockTable n limit) := by
  constructor
  · exact h
  · intro a t c hw
    simp [emptyLockTable] at hw
  · intro a ts counts hr
    simp [emptyLockTable] at hr
  · intro a ts counts hr
    simp [emptyLockTable] at hr
  · intro a w d ts counts hw hr
    simp [emptyLockTable] at hw

/-- The lock table reached from an empty 4-thread table (limit 2) by locking
writes on accounts 0 and 1 and reads on accounts 1 and 2, all on thread 3. -/
def c8LockedState : ThreadAwareAccountLocks where
  num_threads := 4
  sequential_queue_limit := 2
  write_locks := fun a => if a = 1 then some (3, 1) else if a = 0 then some (3, 1) else none
  read_locks := fun a =>
    if a = 2 then some (ThreadSet.only 3, fun u => if u = 3 then 1 else 0)
    else if a = 1 then some (ThreadSet.only 3, fun u => if u = 3 then 1 else 0) else none

/-- Witness for C8 at a concrete lock table and account lists. -/
theorem c8_lock_unlock_roundtrip_witness :
    c8LockedState.unlock_accounts [0, 1] [1, 2] 3 = some (emptyLockTable 4 2) :=
  c8_lock_unlock_roundtrip (emptyLockTable 4 2) c8LockedState
    (emptyLockTable_wf 4 2 (by decide)) [0, 1] [1, 2] 3 (by decide) (by decide) (by decide) rfl

/-! ## TransactionPriorityId and the bounded priority container
(src/core/src/banking_stage/transaction_scheduler/transaction_packet_container.rs) -/

/-- Modelled from the spec: `TransactionPriorityId`, a `(priority, id)` pair
(its defining source file, transaction_priority_id.rs, is not part of the
provided sources; only the container that uses it is). -/
structure TransactionPriorityId where
  priority : Nat
  id : Nat
deriving DecidableEq

/-- Modelled from the spec: the total order on `TransactionPriorityId`,
priority compared first and the id breaking ties. -/
def TransactionPriorityId.ltB (a b : TransactionPriorityId) : Bool :=
  decide (a.priority < b.priority) ||
    (decide (a.priority = b.priority) && decide (a.id < b.id))

/-- The minimum of the heap contents after pushing `x` (the min_max_heap
crate's `push_pop_min` pushes the element and pops the minimum); ties keep
the earlier element, which is unobservable because the order is total. -/
def pushPopMin (queue : List TransactionPriorityId) (x : TransactionPriorityId) :
    TransactionPriorityId × List TransactionPriorityId :=
  let m := queue.foldl (fun m y => if y.ltB m then y else m) x
  (m, (x :: queue).erase m)

/-- The min_max_heap crate's `pop_max`: remove and return a maximal element. -/
def heapPopMax (queue : List TransactionPriorityId) :
    Option (TransactionPriorityId × List TransactionPriorityId) :=
  match queue with
  | [] => none
  | x :: xs =>
      let m := xs.foldl (fun m y => if m.ltB y then y else m) x
      some (m, queue.erase m)

/-- Source `ImmutableDeserializedPacket`, reduced to the fields the container
and the scheduler consult: the fee priority and the pre-computed message hash
(modelled as a `Nat`). -/
structure ImmutableDeserializedPacket where
  priority : Nat
  message_hash : Nat
deriving DecidableEq

/-- Source `DeserializedPacket`: the immutable section plus the `forwarded`
flag. -/
structure DeserializedPacket where
  immutable_section : ImmutableDeserializedPacket
  forwarded : Bool
deriving DecidableEq

/-- Source `DeserializedPacket::from_immutable_section`. -/
def DeserializedPacket.from_immutable_section (p : ImmutableDeserializedPacket) :
    DeserializedPacket :=
  { immutable_section := p, forwarded := false }

/-- Source `SanitizedTransactionTTL`: a sanitized transaction (opaque, modelled
as a `Nat` payload) plus the slot after which it must be discarded. -/
structure SanitizedTransactionTTL where
  transaction : Nat
  max_age_slot : Nat
deriving DecidableEq

/-- Association-list model of `HashMap::insert` (replacing any old entry). -/
def alistInsert {V : Type} (m : List (Nat × V)) (k : Nat) (v : V) : List (Nat × V) :=
  (k, v) :: m.filter (fun p => !(p.1 == k))

/-- Association-list model of `HashMap::remove`. -/
def alistRemove {V : Type} (m : List (Nat × V)) (k : Nat) : List (Nat × V) :=
  m.filter (fun p => !(p.1 == k))

/-- Association-list model of `HashMap::get`. -/
def alistLookup {V : Type} (m : List (Nat × V)) (k : Nat) : Option V :=
  (m.find? (fun p => p.1 == k)).map (fun p => p.2)

/-- Source `TransactionPacketContainer`: bounded min-max heap of priority ids
(modelled as a list plus its capacity) and the two id-keyed maps. -/
structure TransactionPacketContainer where
  priority_queue : List TransactionPriorityId
  queue_capacity : Nat
  id_to_transaction_ttl : List (Nat × SanitizedTransactionTTL)
  id_to_packet : List (Nat × DeserializedPacket)

/-- Source `TransactionPacketContainer::with_capacity`. -/
def TransactionPacketContainer.with_capacity (capacity : Nat) : TransactionPacketContainer :=
  { priority_queue := [], queue_capacity := capacity,
    id_to_transaction_ttl := [], id_to_packet := [] }

/-- Source `remove_by_id`: drop the packet and transaction records (the
priority queue is deliberately not touched). -/
def TransactionPacketContainer.remove_by_id
    (self : TransactionPacketContainer) (id : Nat) : TransactionPacketContainer :=
  { self with
    id_to_packet := alistRemove self.id_to_packet id,
    id_to_transaction_ttl := alistRemove self.id_to_transaction_ttl id }

/-- Source `push_id_into_queue`: push when below capacity; otherwise
`push_pop_min`, dropping the candidate when it is itself the popped minimum
and evicting the popped id's map records otherwise. Returns whether the id
entered the queue, alongside the updated container. -/
def TransactionPacketContainer.push_id_into_queue
    (self : TransactionPacketContainer) (priority_id : TransactionPriorityId) :
    Bool × TransactionPacketContainer :=
  if self.priority_queue.length = self.queue_capacity then
    let pp := pushPopMin self.priority_queue priority_id
    if pp.1 = priority_id then (false, { self with priority_queue := pp.2 })
    else (true,
      TransactionPacketContainer.remove_by_id { self with priority_queue := pp.2 } pp.1.id)
  else (true, { self with priority_queue := priority_id :: self.priority_queue })

/-- Source `insert_new_transaction`: push the priority id; if accepted, insert
the packet and the transaction records. -/
def TransactionPacketContainer.insert_new_transaction
    (self : TransactionPacketContainer) (transaction_id : Nat)
    (packet : ImmutableDeserializedPacket) (transaction_ttl : SanitizedTransactionTTL) :
    TransactionPacketContainer :=
  let priority_id : TransactionPriorityId := { priority := packet.priority, id := transaction_id }
  match self.push_id_into_queue priority_id with
  | (true, c) =>
      { c with
        id_to_packet := alistInsert c.id_to_packet transaction_id
          (DeserializedPacket.from_immutable_section packet),
        id_to_transaction_ttl := alistInsert c.id_to_transaction_ttl transaction_id
          transaction_ttl }
  | (false, c) => c

/-- Source `retry_transaction`: look up the stored packet's priority (panicking
if absent), push the id, and if accepted re-insert only the transaction record. -/
def TransactionPacketContainer.retry_transaction
    (self : TransactionPacketContainer) (transaction_id : Nat)
    (transaction : Nat) (max_age_slot : Nat) : Option TransactionPacketContainer :=
  match alistLookup self.id_to_packet transaction_id with
  | none => none
  | some packet =>
      let priority_id : TransactionPriorityId :=
        { priority := packet.immutable_section.priority, id := transaction_id }
      match self.push_id_into_queue priority_id with
      | (true, c) =>
          some { c with
            id_to_transaction_ttl := alistInsert c.id_to_transaction_ttl transaction_id
              { transaction := transaction, max_age_slot := max_age_slot } }
      | (false, c) => some c

/-- Source `take_top_n`: pop up to `n` maxima from the queue (the maps are
deliberately not touched). -/
def TransactionPacketContainer.take_top_n :
    TransactionPacketContainer → Nat → (List TransactionPriorityId × TransactionPacketContainer)
  | c, 0 => ([], c)
  | c, n + 1 =>
      match heapPopMax c.priority_queue with
      | none => ([], c)
      | some (m, q) =>
          let r := TransactionPacketContainer.take_top_n { c with priority_queue := q } n
          (m :: r.1, r.2)

/-- Repeatedly pop the maximum; fuelled by the queue length. -/
def drainAux : Nat → List TransactionPriorityId → List TransactionPriorityId
  | 0, _ => []
  | n + 1, q =>
      match heapPopMax q with
      | none => []
      | some (m, q') => m :: drainAux n q'

/-- Source `drain_queue`: yield the ids in decreasing priority order and leave
the queue empty (the maps are deliberately not touched). -/
def TransactionPacketContainer.drain_queue (self : TransactionPacketContainer) :
    List TransactionPriorityId × TransactionPacketContainer :=
  (drainAux self.priority_queue.length self.priority_queue,
    { self with priority_queue := [] })

/-- C4: `push_id_into_queue` on a container with capacity C: below capacity
the id is pushed, `true` is returned, and the two maps are untouched; at
capacity, if the candidate is itself the popped minimum, `false` is returned
and the container is unchanged; otherwise the popped minimum's id is removed
from both maps, the candidate is in the queue, and `true` is returned. -/
theorem c4_push_id_into_queue_cases
    (c : TransactionPacketContainer) (p : TransactionPriorityId) :
    (c.priority_queue.length < c.queue_capacity →
      c.push_id_into_queue p = (true, { c with priority_queue := p :: c.priority_queue })) ∧
    (c.priority_queue.length = c.queue_capacity →
      (pushPopMin c.priority_queue p).1 = p →
      c.push_id_into_queue p = (false, c)) ∧
    (c.priority_queue.length = c.queue_capacity →
      (pushPopMin c.priority_queue p).1 ≠ p →
      (c.push_id_into_queue p).1 = true ∧
        p ∈ (c.push_id_into_queue p).2.priority_queue ∧
        alistLookup (c.push_id_into_queue p).2.id_to_packet
          (pushPopMin c.priority_queue p).1.id = none ∧
        alistLookup (c.push_id_into_queue p).2.id_to_transaction_ttl
          (pushPopMin c.priority_queue p).1.id = none) := by
  refine ⟨?_, ?_, ?_⟩
  · intro hlt
    unfold TransactionPacketContainer.push_id_into_queue
    rw [if_neg (by omega)]
  · intro hfull heq
    unfold TransactionPacketContainer.push_id_into_queue
    rw [if_pos hfull, if_pos heq]
    have h2 : (pushPopMin c.priority_queue p).2 = c.priority_queue := by
      unfold pushPopMin
      simp only
      rw [show (c.priority_queue.foldl (fun m y => if y.ltB m then y else m) p) = p from heq]
      exact List.erase_cons_head p c.priority_queue
    rw [h2]
  · intro hfull hne
    unfold TransactionPacketContainer.push_id_into_queue
    rw [if_pos hfull, if_neg hne]
    have h2 : (pushPopMin c.priority_queue p).2 =
        p :: c.priority_queue.erase (pushPopMin c.priority_queue p).1 := by
      unfold pushPopMin
      simp only
      exact List.erase_cons_tail (by
        simpa using (fun hh => hne hh.symm : ¬ p = (pushPopMin c.priority_queue p).1))
    refine ⟨rfl, ?_, ?_, ?_⟩
    · rw [h2]
      exact List.mem_cons_self _ _
    · simp [TransactionPacketContainer.remove_by_id, alistRemove, alistLookup,
        List.find?_filter]
    · simp [TransactionPacketContainer.remove_by_id, alistRemove, alistLookup,
        List.find?_filter]

/-- Witness for C4: the three cases exercised on concrete containers. -/
theorem c4_push_id_into_queue_cases_witness :
    ((TransactionPacketContainer.mk [⟨5, 0⟩] 2 [] []).push_id_into_queue ⟨7, 1⟩ =
      (true, { TransactionPacketContainer.mk [⟨5, 0⟩] 2 [] [] with
        priority_queue := ⟨7, 1⟩ :: [⟨5, 0⟩] })) ∧
    ((TransactionPacketContainer.mk [⟨5, 0⟩] 1 [] []).push_id_into_queue ⟨3, 1⟩ =
      (false, TransactionPacketContainer.mk [⟨5, 0⟩] 1 [] [])) ∧
    (((TransactionPacketContainer.mk [⟨5, 0⟩] 1
          [(0, ⟨7, 0⟩)] [(0, ⟨⟨5, 0⟩, false⟩)]).push_id_into_queue ⟨9, 1⟩).1 = true ∧
      (⟨9, 1⟩ : TransactionPriorityId) ∈
        ((TransactionPacketContainer.mk [⟨5, 0⟩] 1
          [(0, ⟨7, 0⟩)] [(0, ⟨⟨5, 0⟩, false⟩)]).push_id_into_queue ⟨9, 1⟩).2.priority_queue ∧
      alistLookup ((TransactionPacketContainer.mk [⟨5, 0⟩] 1
          [(0, ⟨7, 0⟩)] [(0, ⟨⟨5, 0⟩, false⟩)]).push_id_into_queue ⟨9, 1⟩).2.id_to_packet 0 = none ∧
      alistLookup ((TransactionPacketContainer.mk [⟨5, 0⟩] 1
          [(0, ⟨7, 0⟩)] [(0, ⟨⟨5, 0⟩, false⟩)]).push_id_into_queue ⟨9, 1⟩).2.id_to_transaction_ttl 0
        = none) :=
  ⟨(c4_push_id_into_queue_cases (TransactionPacketContainer.mk [⟨5, 0⟩] 2 [] []) ⟨7, 1⟩).1
      (by decide),
    (c4_push_id_into_queue_cases (TransactionPacketContainer.mk [⟨5, 0⟩] 1 [] []) ⟨3, 1⟩).2.1
      (by decide) (by decide),
    (c4_push_id_into_queue_cases
        (TransactionPacketContainer.mk [⟨5, 0⟩] 1 [(0, ⟨7, 0⟩)] [(0, ⟨⟨5, 0⟩, false⟩)]) ⟨9, 1⟩).2.2
      (by decide) (by decide)⟩

/-- Three-way synchronization of the container (spec.md section 8, item 3):
an id is in the priority heap iff it is a key of the packet map iff it is a
key of the transaction map. -/
def Synced (c : TransactionPacketContainer) : Prop :=
  ∀ id : Nat,
    ((∃ p ∈ c.priority_queue, p.id = id) ↔ alistLookup c.id_to_packet id ≠ none) ∧
    ((∃ p ∈ c.priority_queue, p.id = id) ↔ alistLookup c.id_to_transaction_ttl id ≠ none)

/-- C7 counterexample: insert one transaction into a fresh container, then
`remove_by_id` it; the id is still in the priority heap but in neither map,
so the three sides are not synchronized after this public operation. -/
theorem c7_sync_counterexample :
    ¬ Synced (((TransactionPacketContainer.with_capacity 1).insert_new_transaction 0
        ⟨5, 0⟩ ⟨0, 0⟩).remove_by_id 0) := by
  intro h
  exact absurd ((h 0).1) (by decide)

lemma find_filter_ne {V : Type} (m : List (Nat × V)) (k j : Nat) (h : j ≠ k) :
    (m.filter (fun p => !(p.1 == k))).find? (fun p => p.1 == j) =
      m.find? (fun p => p.1 == j) := by
  induction m with
  | nil => rfl
  | cons a m ih =>
      by_cases hak : a.1 = k
      · have haj : (a.1 == j) = false := by simp [hak, Ne.symm h]
        have hkj : (k == j) = false := by simp [Ne.symm h]
        simp [List.filter_cons, hak, List.find?_cons, haj, ih, hkj]
      · by_cases haj : a.1 = j
        · simp [List.filter_cons, hak, List.find?_cons, haj, h]
        · simp [List.filter_cons, hak, List.find?_cons, haj, ih]

lemma alistLookup_insert {V : Type} (m : List (Nat × V)) (k : Nat) (v : V) (j : Nat) :
    alistLookup (alistInsert m k v) j = if j = k then some v else alistLookup m j := by
  unfold alistLookup alistInsert
  by_cases hj : j = k
  · subst hj
    simp
  · rw [if_neg hj]
    have hk : (k == j) = false := by simp [Ne.symm hj]
    simp only [List.find?_cons, hk]
    rw [find_filter_ne m k j hj]

lemma alistLookup_remove {V : Type} (m : List (Nat × V)) (k : Nat) (j : Nat) :
    alistLookup (alistRemove m k) j = if j = k then none else alistLookup m j := by
  unfold alistLookup alistRemove
  by_cases hj : j = k
  · subst hj
    rw [if_pos rfl]
    rw [List.find?_eq_none.mpr]
    · rfl
    · intro a ha
      have := List.of_mem_filter ha
      simpa using this
  · rw [if_neg hj, find_filter_ne m k j hj]

lemma foldl_min_mem (q : List TransactionPriorityId) (x : TransactionPriorityId) :
    q.foldl (fun m y => if y.ltB m then y else m) x ∈ x :: q := by
  induction q generalizing x with
  | nil => exact List.mem_singleton.mpr rfl
  | cons y q ih =>
      simp only [List.foldl_cons]
      rcases List.mem_cons.mp (ih (if y.ltB x then y else x)) with h | h
      · rw [h]
        by_cases hxy : y.ltB x
        · simp [hxy]
        · simp [hxy]
      · exact List.mem_cons_of_mem x (List.mem_cons_of_mem y h)

lemma exists_id_mem_erase_iff {q : List TransactionPriorityId} {m : TransactionPriorityId}
    (hm : m ∈ q) (hnd : (q.map (fun p => p.id)).Nodup) (j : Nat) :
    (∃ p ∈ q.erase m, p.id = j) ↔ ((∃ p ∈ q, p.id = j) ∧ j ≠ m.id) := by
  have hqnd : q.Nodup := hnd.of_map
  constructor
  · rintro ⟨p, hp, rfl⟩
    obtain ⟨hpne, hpq⟩ := (List.Nodup.mem_erase_iff hqnd).mp hp
    refine ⟨⟨p, hpq, rfl⟩, fun hjm => hpne ?_⟩
    exact List.inj_on_of_nodup_map hnd hpq hm hjm
  · rintro ⟨⟨p, hq, rfl⟩, hjm⟩
    have hpne : p ≠ m := fun hh => hjm (hh ▸ rfl)
    exact ⟨p, (List.mem_erase_of_ne hpne).mpr hq, rfl⟩

/-- C7 (amended): `insert_new_transaction` with a fresh id preserves the
three-way synchronization (and uniqueness of heap ids); the other public
operations do not preserve it, because `take_top_n` and `drain_queue` remove
ids only from the heap while `remove_by_id` removes them only from the maps. -/
theorem c7_insert_new_transaction_preserves_sync
    (c : TransactionPacketContainer)
    (hs : Synced c) (hnd : (c.priority_queue.map (fun p => p.id)).Nodup)
    (id : Nat) (packet : ImmutableDeserializedPacket) (ttl : SanitizedTransactionTTL)
    (hfresh : alistLookup c.id_to_packet id = none) :
    Synced (c.insert_new_transaction id packet ttl) ∧
      ((c.insert_new_transaction id packet ttl).priority_queue.map
        (fun p => p.id)).Nodup := by
  have hidq : ¬ ∃ p ∈ c.priority_queue, p.id = id := fun hex => ((hs id).1.mp hex) hfresh
  have hidq' : id ∉ c.priority_queue.map (fun p => p.id) := by
    intro hmem
    obtain ⟨p, hp, hpid⟩ := List.mem_map.mp hmem
    exact hidq ⟨p, hp, hpid⟩
  have hfresh2 : alistLookup c.id_to_transaction_ttl id = none := by
    cases hq : alistLookup c.id_to_transaction_ttl id with
    | none => rfl
    | some v =>
        exact absurd ((hs id).2.mpr (by rw [hq]; simp)) hidq
  simp only [TransactionPacketContainer.insert_new_transaction,
    TransactionPacketContainer.push_id_into_queue]
  by_cases hlen : c.priority_queue.length = c.queue_capacity
  · rw [if_pos hlen]
    by_cases hpp : (pushPopMin c.priority_queue ⟨packet.priority, id⟩).1 =
        ⟨packet.priority, id⟩
    · rw [if_pos hpp]
      have h2 : (pushPopMin c.priority_queue ⟨packet.priority, id⟩).2 = c.priority_queue := by
        unfold pushPopMin
        simp only
        rw [show (c.priority_queue.foldl (fun m y => if y.ltB m then y else m)
          ⟨packet.priority, id⟩) = ⟨packet.priority, id⟩ from hpp]
        exact List.erase_cons_head _ _
      rw [h2]
      exact ⟨hs, hnd⟩
    · rw [if_neg hpp]
      simp only [TransactionPacketContainer.remove_by_id]
      have hmem : (pushPopMin c.priority_queue ⟨packet.priority, id⟩).1 ∈
          (⟨packet.priority, id⟩ : TransactionPriorityId) :: c.priority_queue := by
        unfold pushPopMin
        simp only
        exact foldl_min_mem c.priority_queue ⟨packet.priority, id⟩
      have hmq : (pushPopMin c.priority_queue ⟨packet.priority, id⟩).1 ∈ c.priority_queue := by
        rcases List.mem_cons.mp hmem with h | h
        · exact absurd h hpp
        · exact h
      have hq2 : (pushPopMin c.priority_queue ⟨packet.priority, id⟩).2 =
          (⟨packet.priority, id⟩ : TransactionPriorityId) ::
            c.priority_queue.erase (pushPopMin c.priority_queue ⟨packet.priority, id⟩).1 := by
        unfold pushPopMin
        simp only
        refine List.erase_cons_tail ?_
        intro hh
        exact hpp (eq_of_beq hh).symm
      have hmid : (pushPopMin c.priority_queue ⟨packet.priority, id⟩).1.id ≠ id := by
        intro hh
        exact hidq ⟨_, hmq, hh⟩
      constructor
      · intro j
        have hqiff : (∃ p ∈ (pushPopMin c.priority_queue ⟨packet.priority, id⟩).2,
            p.id = j) ↔ (j = id ∨ ((∃ p ∈ c.priority_queue, p.id = j) ∧
              j ≠ (pushPopMin c.priority_queue ⟨packet.priority, id⟩).1.id)) := by
          rw [hq2]
          constructor
          · rintro ⟨p, hp, rfl⟩
            rcases List.mem_cons.mp hp with rfl | hp'
            · exact Or.inl rfl
            · exact Or.inr ((exists_id_mem_erase_iff hmq hnd _).mp ⟨p, hp', rfl⟩)
          · rintro (rfl | hrest)
            · exact ⟨⟨packet.priority, j⟩, List.mem_cons_self _ _, rfl⟩
            · obtain ⟨p, hp, rfl⟩ := (exists_id_mem_erase_iff hmq hnd _).mpr hrest
              exact ⟨p, List.mem_cons_of_mem _ hp, rfl⟩
        constructor
        · rw [hqiff, alistLookup_insert]
          by_cases hj : j = id
          · simp [hj]
          · rw [if_neg hj, alistLookup_remove]
            by_cases hjm : j = (pushPopMin c.priority_queue ⟨packet.priority, id⟩).1.id
            · simp [hj, hjm, hmid]
            · simp only [if_neg hjm]
              rw [← (hs j).1]
              simp [hj, hjm]
        · rw [hqiff, alistLookup_insert]
          by_cases hj : j = id
          · simp [hj]
          · rw [if_neg hj, alistLookup_remove]
            by_cases hjm : j = (pushPopMin c.priority_queue ⟨packet.priority, id⟩).1.id
            · simp [hj, hjm, hmid]
            · simp only [if_neg hjm]
              rw [← (hs j).2]
              simp [hj, hjm]
      · rw [hq2]
        simp only [List.map_cons]
        refine List.Nodup.cons ?_ (hnd.sublist (List.Sublist.map _
          (List.erase_sublist _ _)))
        intro hmem2
        exact hidq' ((List.Sublist.map (fun p : TransactionPriorityId => p.id)
          (List.erase_sublist (pushPopMin c.priority_queue ⟨packet.priority, id⟩).1
            c.priority_queue)).subset hmem2)
  · rw [if_neg hlen]
    dsimp only
    constructor
    · intro j
      have hqiff : (∃ p ∈ (⟨packet.priority, id⟩ : TransactionPriorityId) ::
          c.priority_queue, p.id = j) ↔ (j = id ∨ ∃ p ∈ c.priority_queue, p.id = j) := by
        constructor
        · rintro ⟨p, hp, rfl⟩
          rcases List.mem_cons.mp hp with rfl | hp'
          · exact Or.inl rfl
          · exact Or.inr ⟨p, hp', rfl⟩
        · rintro (rfl | ⟨p, hp, rfl⟩)
          · exact ⟨⟨packet.priority, j⟩, List.mem_cons_self _ _, rfl⟩
          · exact ⟨p, List.mem_cons_of_mem _ hp, rfl⟩
      constructor
      · rw [hqiff, alistLookup_insert]
        by_cases hj : j = id
        · simp [hj]
        · rw [if_neg hj, ← (hs j).1]
          simp [hj]
      · rw [hqiff, alistLookup_insert]
        by_cases hj : j = id
        · simp [hj]
        · rw [if_neg hj, ← (hs j).2]
          simp [hj]
    · simp only [List.map_cons]
      exact List.Nodup.cons hidq' hnd

/-- Witness for C7's amended theorem at a concrete container. -/
theorem c7_insert_new_transaction_preserves_sync_witness :
    Synced ((TransactionPacketContainer.mk [⟨5, 0⟩] 2 [(0, ⟨9, 3⟩)]
        [(0, ⟨⟨5, 0⟩, false⟩)]).insert_new_transaction 1 ⟨7, 1⟩ ⟨4, 8⟩) ∧
      (((TransactionPacketContainer.mk [⟨5, 0⟩] 2 [(0, ⟨9, 3⟩)]
        [(0, ⟨⟨5, 0⟩, false⟩)]).insert_new_transaction 1 ⟨7, 1⟩ ⟨4, 8⟩).priority_queue.map
          (fun p => p.id)).Nodup :=
  c7_insert_new_transaction_preserves_sync
    (TransactionPacketContainer.mk [⟨5, 0⟩] 2 [(0, ⟨9, 3⟩)] [(0, ⟨⟨5, 0⟩, false⟩)])
    (by
      intro j
      by_cases hj : j = 0
      · subst hj
        exact ⟨by decide, by decide⟩
      · have hj' : ((0 : Nat) == j) = false := by simp [Ne.symm hj]
        have hlook1 : alistLookup [(0, (⟨⟨5, 0⟩, false⟩ : DeserializedPacket))] j = none := by
          simp [alistLookup, List.find?, hj']
        have hlook2 : alistLookup [(0, (⟨9, 3⟩ : SanitizedTransactionTTL))] j = none := by
          simp [alistLookup, List.find?, hj']
        have hqnone : ¬ ∃ p ∈ [(⟨5, 0⟩ : TransactionPriorityId)], p.id = j := by
          rintro ⟨p, hp, hpj⟩
          simp only [List.mem_singleton] at hp
          subst hp
          exact hj hpj.symm
        exact ⟨⟨fun h => absurd h hqnone, fun h => absurd hlook1 h⟩,
          ⟨fun h => absurd h hqnone, fun h => absurd hlook2 h⟩⟩)
    (by decide) 1 ⟨7, 1⟩ ⟨4, 8⟩ (by decide)

/-! ## Central non-conflicting scheduler
(src/core/src/transaction_scheduler/central_nonconflicting_scheduler.rs) -/

/-- Source `SanitizedTransactionPriority`: a sanitized transaction with its
packet priority. The transaction itself is reduced to its message hash and
its declared account-lock lists (`get_account_locks`). A `TransactionRef`
(`Rc<SanitizedTransactionPriority>`) is modelled by the value itself: the
scheduler is single-threaded and all clones are value-identical. -/
structure SanitizedTransactionPriority where
  priority : Nat
  message_hash : Nat
  writable : List Account
  readonly : List Account
deriving DecidableEq

/-- Source `Ord for SanitizedTransactionPriority`: compares ONLY the priority
field. -/
def SanitizedTransactionPriority.cmp (a b : SanitizedTransactionPriority) : Ordering :=
  compare a.priority b.priority

/-- Source `PartialEq for SanitizedTransactionPriority`: equal priority AND
equal message hash. -/
def SanitizedTransactionPriority.rustEq (a b : SanitizedTransactionPriority) : Bool :=
  (a.priority == b.priority) && (a.message_hash == b.message_hash)

/-- Source `std::cmp::min` under the transaction `Ord` (returns the first
argument when the comparison is equal). -/
def rustMinTx (v1 v2 : SanitizedTransactionPriority) : SanitizedTransactionPriority :=
  if SanitizedTransactionPriority.cmp v2 v1 = Ordering.lt then v2 else v1

/-- Source `option_min`: compare options, `None` not considered less. -/
def option_min :
    Option SanitizedTransactionPriority → Option SanitizedTransactionPriority →
      Option SanitizedTransactionPriority
  | some lhs, some rhs => some (rustMinTx lhs rhs)
  | some lhs, none => some lhs
  | none, rhs => rhs

/-- Source `AccountLockInner`: outstanding count and the lowest-priority
scheduled transaction. -/
structure AccountLockInner where
  count : Nat
  lowest_priority_transaction : Option SanitizedTransactionPriority
deriving DecidableEq

/-- The `Default` instance of `AccountLockInner`. -/
def AccountLockInner.init : AccountLockInner :=
  { count := 0, lowest_priority_transaction := none }

/-- Source `AccountLockInner::lock_for_transaction`: bump the count; replace
the minimum when the new transaction compares strictly lower. -/
def AccountLockInner.lock_for_transaction (self : AccountLockInner)
    (transaction : SanitizedTransactionPriority) : AccountLockInner :=
  { count := self.count + 1,
    lowest_priority_transaction :=
      match self.lowest_priority_transaction with
      | some tx =>
          if (SanitizedTransactionPriority.cmp transaction tx).isLT then some transaction
          else some tx
      | none => some transaction }

/-- Source `AccountLockInner::unlock_for_transaction`: assert a positive
count, decrement, and clear the minimum when the count reaches zero. -/
def AccountLockInner.unlock_for_transaction (self : AccountLockInner)
    (_transaction : SanitizedTransactionPriority) : Option AccountLockInner :=
  match self.count with
  | 0 => none
  | c + 1 =>
      some { count := c,
             lowest_priority_transaction :=
               if c = 0 then none else self.lowest_priority_transaction }

/-- Source `AccountLock`: write and read lock summaries. -/
structure AccountLock where
  write : AccountLockInner
  read : AccountLockInner
deriving DecidableEq

/-- The `Default` instance of `AccountLock`. -/
def AccountLock.init : AccountLock :=
  { write := AccountLockInner.init, read := AccountLockInner.init }

/-- Source `AccountLock::lock_on_transaction`. -/
def AccountLock.lock_on_transaction (self : AccountLock)
    (transaction : SanitizedTransactionPriority) (is_write : Bool) : AccountLock :=
  if is_write then { self with write := self.write.lock_for_transaction transaction }
  else { self with read := self.read.lock_for_transaction transaction }

/-- Source `AccountLock::unlock_on_transaction`. -/
def AccountLock.unlock_on_transaction (self : AccountLock)
    (transaction : SanitizedTransactionPriority) (is_write : Bool) : Option AccountLock :=
  if is_write then
    (self.write.unlock_for_transaction transaction).map fun w => { self with write := w }
  else
    (self.read.unlock_for_transaction transaction).map fun r => { self with read := r }

/-- Source `AccountLock::get_lowest_priority_transaction`. -/
def AccountLock.get_lowest_priority_transaction (self : AccountLock) (is_write : Bool) :
    Option SanitizedTransactionPriority :=
  (if is_write then self.write else self.read).lowest_priority_transaction

/-- Body of source `AccountTransactionQueue::get_min_blocking_transaction`,
which reads only the account's `scheduled_lock`: a write candidate is blocked
by the lowest-priority scheduled read or write, a read candidate only by the
lowest-priority scheduled write. -/
def AccountLock.min_blocking_transaction (self : AccountLock)
    (is_write : Bool) : Option SanitizedTransactionPriority :=
  let min_blocking_transaction : Option SanitizedTransactionPriority := none
  let min_blocking_transaction :=
    if is_write then
      option_min min_blocking_transaction (self.get_lowest_priority_transaction false)
    else min_blocking_transaction
  option_min min_blocking_transaction (self.get_lowest_priority_transaction true)

/-- Source `BTreeSet::insert` under the transaction `Ord` (no replacement when
a cmp-equal element is present). -/
def btreeInsertTx (s : List SanitizedTransactionPriority)
    (tx : SanitizedTransactionPriority) : List SanitizedTransactionPriority :=
  if s.any (fun y => SanitizedTransactionPriority.cmp tx y == Ordering.eq) then s
  else tx :: s

/-- Source `BTreeSet::remove` under the transaction `Ord`: remove the
cmp-equal element, `none` when absent (the caller asserts). -/
def btreeRemoveTx (s : List SanitizedTransactionPriority)
    (tx : SanitizedTransactionPriority) : Option (List SanitizedTransactionPriority) :=
  if s.any (fun y => SanitizedTransactionPriority.cmp tx y == Ordering.eq) then
    some (s.eraseP (fun y => SanitizedTransactionPriority.cmp tx y == Ordering.eq))
  else none

/-- Source `AccountTransactionQueue`: priority-ordered read and write sets
plus the scheduled-lock summary. -/
structure AccountTransactionQueue where
  reads : List SanitizedTransactionPriority
  writes : List SanitizedTransactionPriority
  scheduled_lock : AccountLock
deriving DecidableEq

/-- The `Default` instance of `AccountTransactionQueue`. -/
def AccountTransactionQueue.init : AccountTransactionQueue :=
  { reads := [], writes := [], scheduled_lock := AccountLock.init }

/-- Source `AccountTransactionQueue::insert_transaction`. -/
def AccountTransactionQueue.insert_transaction (self : AccountTransactionQueue)
    (transaction : SanitizedTransactionPriority) (is_write : Bool) :
    AccountTransactionQueue :=
  if is_write then { self with writes := btreeInsertTx self.writes transaction }
  else { self with reads := btreeInsertTx self.reads transaction }

/-- Source `AccountTransactionQueue::handle_schedule_transaction`. -/
def AccountTransactionQueue.handle_schedule_transaction (self : AccountTransactionQueue)
    (transaction : SanitizedTransactionPriority) (is_write : Bool) :
    AccountTransactionQueue :=
  { self with scheduled_lock := self.scheduled_lock.lock_on_transaction transaction is_write }

/-- Source `AccountTransactionQueue::remove_transaction`: remove from the
appropriate tree (asserting presence), unlock, and report whether both trees
are now empty. -/
def AccountTransactionQueue.remove_transaction (self : AccountTransactionQueue)
    (transaction : SanitizedTransactionPriority) (is_write : Bool) :
    Option (Bool × AccountTransactionQueue) :=
  let trees : Option (List SanitizedTransactionPriority × List SanitizedTransactionPriority) :=
    if is_write then (btreeRemoveTx self.writes transaction).map fun w => (self.reads, w)
    else (btreeRemoveTx self.reads transaction).map fun r => (r, self.writes)
  trees.bind fun rw =>
    (self.scheduled_lock.unlock_on_transaction transaction is_write).map fun lock =>
      (rw.2.isEmpty && rw.1.isEmpty,
        { reads := rw.1, writes := rw.2, scheduled_lock := lock })

/-- Source `AccountTransactionQueue::get_min_blocking_transaction` (delegates
to the scheduled lock; the candidate itself is not inspected). -/
def AccountTransactionQueue.get_min_blocking_transaction (self : AccountTransactionQueue)
    (_transaction : SanitizedTransactionPriority) (is_write : Bool) :
    Option SanitizedTransactionPriority :=
  self.scheduled_lock.min_blocking_transaction is_write

/-- The min_max_heap `push_pop_min` on the pending heap, whose `Ord` compares
only priorities: push the transaction and pop a minimal-priority one (which
of several priority-equal minima the heap returns is unspecified; the model
takes the first). -/
def heapPushPopMinTx (queue : List SanitizedTransactionPriority)
    (x : SanitizedTransactionPriority) :
    SanitizedTransactionPriority × List SanitizedTransactionPriority :=
  let m := queue.foldl
    (fun m y => if SanitizedTransactionPriority.cmp y m = Ordering.lt then y else m) x
  (m, (x :: queue).erase m)

/-- Source `TransactionQueue`: the pending min-max heap (modelled as a list
plus its capacity), the per-account queues, the blocked map (absent entry =
empty list), and the tracking map, the latter two keyed by message hash. -/
structure TransactionQueue where
  pending_transactions : List SanitizedTransactionPriority
  pending_capacity : Nat
  account_queues : Account → Option AccountTransactionQueue
  blocked_transactions : Nat → List SanitizedTransactionPriority
  tracking_map : Nat → Option (SanitizedTransactionPriority × DeserializedPacket)

/-- Source `TransactionQueue::with_capacity` (the maps start empty). -/
def TransactionQueue.with_capacity (capacity : Nat) : TransactionQueue :=
  { pending_transactions := [], pending_capacity := capacity,
    account_queues := fun _ => none, blocked_transactions := fun _ => [],
    tracking_map := fun _ => none }

/-- Source `TransactionQueue::remaining_capacity`. -/
def TransactionQueue.remaining_capacity (self : TransactionQueue) : Nat :=
  self.pending_capacity - self.pending_transactions.length

/-- One account of source `insert_transaction_into_account_queues`
(`entry(account).or_default().insert_transaction`), folded over a list. -/
def insertAccList (self : TransactionQueue) (transaction : SanitizedTransactionPriority) :
    List Account → Bool → TransactionQueue
  | [], _ => self
  | a :: rest, is_write =>
      let q := (self.account_queues a).getD AccountTransactionQueue.init
      insertAccList
        { self with account_queues := fun x =>
            if x = a then some (q.insert_transaction transaction is_write)
            else self.account_queues x }
        transaction rest is_write

/-- Source `insert_transaction_into_account_queues`: readonly accounts first,
then writable accounts. -/
def TransactionQueue.insert_transaction_into_account_queues
    (self : TransactionQueue) (transaction : SanitizedTransactionPriority) :
    TransactionQueue :=
  insertAccList (insertAccList self transaction transaction.readonly false)
    transaction transaction.writable true

/-- One account of source `remove_transaction_from_account_queues`
(`get_mut(account).expect(..)`, `remove_transaction`, and eviction of emptied
entries), folded over a list. -/
def removeAccList (self : TransactionQueue) (transaction : SanitizedTransactionPriority) :
    List Account → Bool → Option TransactionQueue
  | [], _ => some self
  | a :: rest, is_write =>
      match self.account_queues a with
      | none => none
      | some q =>
          (q.remove_transaction transaction is_write).bind fun eq2 =>
            removeAccList
              { self with account_queues := fun x =>
                  if x = a then (if eq2.1 then none else some eq2.2)
                  else self.account_queues x }
              transaction rest is_write

/-- Source `remove_transaction_from_account_queues`: readonly accounts first,
then writable accounts. -/
def TransactionQueue.remove_transaction_from_account_queues
    (self : TransactionQueue) (transaction : SanitizedTransactionPriority) :
    Option TransactionQueue :=
  (removeAccList self transaction transaction.readonly false).bind fun s =>
    removeAccList s transaction transaction.writable true

mutual
/-- Source `insert_transaction_into_pending_queue`: push when below capacity,
otherwise `push_pop_min` and remove the dropped transaction. The recursion
through `remove_transaction` (which can re-insert blocked transactions) is
fuelled; `none` models both a panic and fuel exhaustion, and the claims below
only traverse paths that do not consume fuel. -/
def TransactionQueue.insert_transaction_into_pending_queue
    (fuel : Nat) (self : TransactionQueue)
    (transaction : SanitizedTransactionPriority) : Option TransactionQueue :=
  if 0 < self.remaining_capacity then
    some { self with pending_transactions := transaction :: self.pending_transactions }
  else
    match fuel with
    | 0 => none
    | f + 1 =>
        let dropped := heapPushPopMinTx self.pending_transactions transaction
        TransactionQueue.remove_transaction f
          { self with pending_transactions := dropped.2 } dropped.1
termination_by (fuel, 0, 0)

/-- Source `remove_transaction`: remove the tracking entry (asserting
presence), remove from the account queues, and unblock the parked
transactions. -/
def TransactionQueue.remove_transaction (fuel : Nat) (self : TransactionQueue)
    (transaction : SanitizedTransactionPriority) : Option TransactionQueue :=
  match self.tracking_map transaction.message_hash with
  | none => none
  | some _ =>
      let s1 := { self with tracking_map := fun h =>
        if h = transaction.message_hash then none else self.tracking_map h }
      (s1.remove_transaction_from_account_queues transaction).bind fun s2 =>
        TransactionQueue.unblock_transaction fuel s2 transaction
termination_by (fuel, 3, 0)

/-- Source `unblock_transaction`: take the blocked list for this hash and
re-insert each parked transaction into the pending heap. -/
def TransactionQueue.unblock_transaction (fuel : Nat) (self : TransactionQueue)
    (transaction : SanitizedTransactionPriority) : Option TransactionQueue :=
  let blocked := self.blocked_transactions transaction.message_hash
  TransactionQueue.insert_all_into_pending_queue fuel
    { self with blocked_transactions := fun h =>
        if h = transaction.message_hash then [] else self.blocked_transactions h }
    blocked
termination_by (fuel, 2, 0)

/-- The re-insertion loop of `unblock_transaction`. -/
def TransactionQueue.insert_all_into_pending_queue (fuel : Nat)
    (self : TransactionQueue) :
    List SanitizedTransactionPriority → Option TransactionQueue
  | [] => some self
  | t :: ts =>
      (TransactionQueue.insert_transaction_into_pending_queue fuel self t).bind fun s =>
        TransactionQueue.insert_all_into_pending_queue fuel s ts
termination_by l => (fuel, 1, l.length)
end

/-- Source `TransactionQueue::insert_transaction`: insert into the tracking
map keyed by the packet's message hash, let `already_exists` be whether the
insertion returned no previous value (`is_none`), and assert its negation;
then insert into the account queues and the pending heap. -/
def TransactionQueue.insert_transaction (fuel : Nat) (self : TransactionQueue)
    (transaction : SanitizedTransactionPriority) (packet : DeserializedPacket) :
    Option TransactionQueue :=
  let old := self.tracking_map packet.immutable_section.message_hash
  let tracking' := fun h =>
    if h = packet.immutable_section.message_hash then some (transaction, packet)
    else self.tracking_map h
  let already_exists := old.isNone
  if already_exists then none
  else
    let s1 := { self with tracking_map := tracking' }
    let s2 := s1.insert_transaction_into_account_queues transaction
    TransactionQueue.insert_transaction_into_pending_queue fuel s2 transaction

/-- Source `TransactionQueue::complete_or_retry`: look up the tracked
transaction by the packet's message hash (panicking when absent); on retry
panic (the implementation forbids retryable transactions), otherwise remove
the transaction. -/
def TransactionQueue.complete_or_retry (fuel : Nat) (self : TransactionQueue)
    (packet : ImmutableDeserializedPacket) (retry : Bool) : Option TransactionQueue :=
  match self.tracking_map packet.message_hash with
  | none => none
  | some txp =>
      if retry then none
      else TransactionQueue.remove_transaction fuel self txp.1

/-- Source `TransactionQueue::mark_forwarded`: set the `forwarded` flag on
the tracked packet (panicking when absent). -/
def TransactionQueue.mark_forwarded (self : TransactionQueue)
    (packet : ImmutableDeserializedPacket) : Option TransactionQueue :=
  match self.tracking_map packet.message_hash with
  | none => none
  | some txp =>
      some { self with tracking_map := fun h =>
        if h = packet.message_hash then some (txp.1, { txp.2 with forwarded := true })
        else self.tracking_map h }

/-- C10: the pending-heap and per-account-tree ordering
(`Ord for SanitizedTransactionPriority`) compares only the priority, while the
`PartialEq` also requires equal message hashes; two distinct transactions of
equal priority and different hashes compare `Equal` though they are unequal,
and inserting the second into a `BTreeSet` (per-account reads tree) holding
the first is a no-op: the ordered containers treat them as duplicates. -/
theorem c10_ord_compares_only_priority :
    SanitizedTransactionPriority.cmp ⟨5, 1, [], []⟩ ⟨5, 2, [], []⟩ = Ordering.eq ∧
      SanitizedTransactionPriority.rustEq ⟨5, 1, [], []⟩ ⟨5, 2, [], []⟩ = false ∧
      (⟨5, 1, [], []⟩ : SanitizedTransactionPriority) ≠ ⟨5, 2, [], []⟩ ∧
      (AccountTransactionQueue.insert_transaction
          { reads := [⟨5, 1, [], []⟩], writes := [], scheduled_lock := AccountLock.init }
          ⟨5, 2, [], []⟩ false).reads = [⟨5, 1, [], []⟩] := by
  refine ⟨by decide, by decide, by decide, by decide⟩


/-- A lowest-priority element of a list of scheduled transactions: `none`
exactly for the empty list, otherwise a member of minimal priority. -/
def isLowestPriority (o : Option SanitizedTransactionPriority)
    (l : List SanitizedTransactionPriority) : Prop :=
  match o with
  | none => l = []
  | some t => t ∈ l ∧ ∀ u ∈ l, t.priority ≤ u.priority

lemma option_min_isLowest {o1 o2 : Option SanitizedTransactionPriority}
    {l1 l2 : List SanitizedTransactionPriority}
    (h1 : isLowestPriority o1 l1) (h2 : isLowestPriority o2 l2) :
    isLowestPriority (option_min o1 o2) (l1 ++ l2) := by
  cases o1 with
  | none =>
      have : l1 = [] := h1
      subst this
      simpa [option_min] using h2
  | some a =>
      cases o2 with
      | none =>
          have : l2 = [] := h2
          subst this
          simpa [option_min] using h1
      | some b =>
          obtain ⟨ham, hamin⟩ := h1
          obtain ⟨hbm, hbmin⟩ := h2
          simp only [option_min, rustMinTx, SanitizedTransactionPriority.cmp]
          by_cases hcmp : compare b.priority a.priority = Ordering.lt
          · rw [if_pos hcmp]
            have hba : b.priority < a.priority := Nat.compare_eq_lt.mp hcmp
            refine ⟨List.mem_append.mpr (Or.inr hbm), ?_⟩
            intro u hu
            rcases List.mem_append.mp hu with h | h
            · exact le_trans (le_of_lt hba) (hamin u h)
            · exact hbmin u h
          · rw [if_neg hcmp]
            have hab : a.priority ≤ b.priority := by
              rcases Nat.lt_or_ge b.priority a.priority with h | h
              · exact absurd (Nat.compare_eq_lt.mpr h) hcmp
              · exact h
            refine ⟨List.mem_append.mpr (Or.inl ham), ?_⟩
            intro u hu
            rcases List.mem_append.mp hu with h | h
            · exact hamin u h
            · exact le_trans hab (hbmin u h)

/-- C9: when the write summary holds a lowest-priority scheduled writer and
the read summary a lowest-priority scheduled reader, a write candidate's
`get_min_blocking_transaction` is a lowest-priority transaction among all
scheduled readers and writers (`none` when neither exists), and a read
candidate's is exactly the lowest-priority scheduled writer, never a reader. -/
theorem c9_get_min_blocking_transaction
    (q : AccountTransactionQueue) (candidate : SanitizedTransactionPriority)
    (ws rs : List SanitizedTransactionPriority)
    (hw : isLowestPriority q.scheduled_lock.write.lowest_priority_transaction ws)
    (hr : isLowestPriority q.scheduled_lock.read.lowest_priority_transaction rs) :
    isLowestPriority (q.get_min_blocking_transaction candidate true) (rs ++ ws) ∧
      q.get_min_blocking_transaction candidate false =
        q.scheduled_lock.write.lowest_priority_transaction ∧
      isLowestPriority (q.get_min_blocking_transaction candidate false) ws := by
  have e1 : q.get_min_blocking_transaction candidate true =
      option_min q.scheduled_lock.read.lowest_priority_transaction
        q.scheduled_lock.write.lowest_priority_transaction := rfl
  have e2 : q.get_min_blocking_transaction candidate false =
      option_min none q.scheduled_lock.write.lowest_priority_transaction := rfl
  have e3 : option_min none q.scheduled_lock.write.lowest_priority_transaction =
      q.scheduled_lock.write.lowest_priority_transaction := rfl
  refine ⟨?_, e2.trans e3, ?_⟩
  · rw [e1]
    exact option_min_isLowest hr hw
  · rw [e2, e3]
    exact hw

/-- Witness for C9 at a concrete scheduled-lock state. -/
theorem c9_get_min_blocking_transaction_witness :
    isLowestPriority
      ((AccountTransactionQueue.mk [] []
          (AccountLock.mk ⟨2, some ⟨3, 10, [], []⟩⟩
            ⟨1, some ⟨4, 11, [], []⟩⟩)).get_min_blocking_transaction ⟨9, 12, [], []⟩ true)
      ([⟨4, 11, [], []⟩] ++ [⟨3, 10, [], []⟩, ⟨6, 13, [], []⟩]) ∧
      (AccountTransactionQueue.mk [] []
          (AccountLock.mk ⟨2, some ⟨3, 10, [], []⟩⟩
            ⟨1, some ⟨4, 11, [], []⟩⟩)).get_min_blocking_transaction ⟨9, 12, [], []⟩ false =
        some ⟨3, 10, [], []⟩ ∧
      isLowestPriority
        ((AccountTransactionQueue.mk [] []
            (AccountLock.mk ⟨2, some ⟨3, 10, [], []⟩⟩
              ⟨1, some ⟨4, 11, [], []⟩⟩)).get_min_blocking_transaction ⟨9, 12, [], []⟩ false)
        [⟨3, 10, [], []⟩, ⟨6, 13, [], []⟩] :=
  c9_get_min_blocking_transaction
    (AccountTransactionQueue.mk [] []
      (AccountLock.mk ⟨2, some ⟨3, 10, [], []⟩⟩ ⟨1, some ⟨4, 11, [], []⟩⟩))
    ⟨9, 12, [], []⟩ [⟨3, 10, [], []⟩, ⟨6, 13, [], []⟩] [⟨4, 11, [], []⟩]
    (by constructor <;> decide) (by constructor <;> decide)

/-- C3: the boolean `already_exists` in `insert_transaction` is inverted: the
`HashMap::insert` result `is_none()` is true exactly when the message hash was
absent, so `assert!(!already_exists)` panics on every fresh insertion (the
case the claim says must succeed) and passes on duplicates. -/
theorem c3_insert_transaction_asserts_on_fresh
    (fuel : Nat) (self : TransactionQueue)
    (transaction : SanitizedTransactionPriority) (packet : DeserializedPacket)
    (h : self.tracking_map packet.immutable_section.message_hash = none) :
    TransactionQueue.insert_transaction fuel self transaction packet = none := by
  unfold TransactionQueue.insert_transaction
  simp [h]

/-- Witness for C3: inserting the very first transaction into an empty queue
hits the inverted assertion. -/
theorem c3_insert_transaction_asserts_on_fresh_witness :
    TransactionQueue.insert_transaction 5 (TransactionQueue.with_capacity 4)
      ⟨1, 0, [], []⟩ ⟨⟨1, 0⟩, false⟩ = none :=
  c3_insert_transaction_asserts_on_fresh 5 (TransactionQueue.with_capacity 4)
    ⟨1, 0, [], []⟩ ⟨⟨1, 0⟩, false⟩ rfl

/-- A queue tracking one transaction (hash 0), used for claim C6. -/
def c6State : TransactionQueue :=
  { pending_transactions := [], pending_capacity := 4,
    account_queues := fun _ => none, blocked_transactions := fun _ => [],
    tracking_map := fun h =>
      if h = 0 then some (⟨1, 0, [], []⟩, ⟨⟨1, 0⟩, false⟩) else none }

/-- C6 counterexample: for a completed packet whose hash is tracked,
`complete_or_retry(packet, retry = true)` does not re-insert the transaction
into the pending heap; it panics
(`"There shouldn't be any retryable transactions"`). -/
theorem c6_complete_or_retry_retry_counterexample :
    ¬ ∃ S', TransactionQueue.complete_or_retry 5 c6State ⟨1, 0⟩ true = some S' := by
  rintro ⟨S', hS⟩
  rw [show TransactionQueue.complete_or_retry 5 c6State ⟨1, 0⟩ true = none from rfl] at hS
  cases hS

/-- C6 (amended): for every queue state and packet, `complete_or_retry` with
`retry = true` panics; the implementation treats all completions as final and
asserts that no transaction is retryable. -/
theorem c6_complete_or_retry_retry_panics
    (fuel : Nat) (self : TransactionQueue) (packet : ImmutableDeserializedPacket)
    (h : (self.tracking_map packet.message_hash).isSome = true) :
    TransactionQueue.complete_or_retry fuel self packet true = none := by
  unfold TransactionQueue.complete_or_retry
  cases hm : self.tracking_map packet.message_hash with
  | none => rfl
  | some v => simp

/-- Witness for C6's amended theorem. -/
theorem c6_complete_or_retry_retry_panics_witness :
    TransactionQueue.complete_or_retry 7 c6State ⟨1, 0⟩ true = none :=
  c6_complete_or_retry_retry_panics 7 c6State ⟨1, 0⟩ (by decide)

/-! ### Claim C1: in-flight consume batches never conflict across batches -/

/-- Source `TransactionQueue::get_lowest_priority_blocking_transaction`,
reduced to the per-account scheduled locks (the only state it reads - source
`AccountTransactionQueue::get_min_blocking_transaction` delegates to the
`scheduled_lock`): fold `option_min` over the readonly accounts' blocking
minima queried as reads, then continue the fold over the writable accounts'
minima queried as writes. The source's `account_queues.get(key).unwrap()` is
modelled by a total map defaulting to `AccountLock::default()`. -/
def getLowestPriorityBlockingTransaction (locks : Account → AccountLock)
    (transaction : SanitizedTransactionPriority) : Option SanitizedTransactionPriority :=
  let min_blocking_transaction :=
    transaction.readonly.foldl
      (fun acc account_key =>
        option_min acc ((locks account_key).min_blocking_transaction false))
      none
  transaction.writable.foldl
    (fun acc account_key =>
      option_min acc ((locks account_key).min_blocking_transaction true))
    min_blocking_transaction

/-- One account-list pass of source `TransactionQueue::lock_for_transaction`
(`handle_schedule_transaction` at each listed account), reduced to the
scheduled locks. -/
def schedLockAccList (locks : Account → AccountLock)
    (transaction : SanitizedTransactionPriority) :
    List Account → Bool → (Account → AccountLock)
  | [], _ => locks
  | account :: rest, is_write =>
      schedLockAccList
        (fun x =>
          if x = account then (locks account).lock_on_transaction transaction is_write
          else locks x)
        transaction rest is_write

/-- Source `TransactionQueue::lock_for_transaction`: lock the readonly
accounts as reads, then the writable accounts as writes. -/
def schedLockForTransaction (locks : Account → AccountLock)
    (transaction : SanitizedTransactionPriority) : Account → AccountLock :=
  schedLockAccList (schedLockAccList locks transaction transaction.readonly false)
    transaction transaction.writable true

/-- Source `TransactionQueue::lock_batch`. -/
def schedLockBatch (locks : Account → AccountLock)
    (batch : List SanitizedTransactionPriority) : Account → AccountLock :=
  batch.foldl schedLockForTransaction locks

/-- One account-list pass of source
`TransactionQueue::remove_transaction_from_account_queues`, reduced to the
scheduled locks (`AccountLock::unlock_on_transaction` at each listed account;
`none` when the inner `assert!(count > 0)` fails). -/
def schedUnlockAccList (locks : Account → AccountLock)
    (transaction : SanitizedTransactionPriority) :
    List Account → Bool → Option (Account → AccountLock)
  | [], _ => some locks
  | account :: rest, is_write =>
      ((locks account).unlock_on_transaction transaction is_write).bind fun lock =>
        schedUnlockAccList (fun x => if x = account then lock else locks x)
          transaction rest is_write

/-- Source `TransactionQueue::remove_transaction_from_account_queues`, reduced
to the scheduled locks: unlock the readonly accounts, then the writable ones,
as the source iterates. -/
def schedUnlockForTransaction (locks : Account → AccountLock)
    (transaction : SanitizedTransactionPriority) : Option (Account → AccountLock) :=
  (schedUnlockAccList locks transaction transaction.readonly false).bind fun locks1 =>
    schedUnlockAccList locks1 transaction transaction.writable true

/-- The scheduler state reduced to what claim C1 speaks about: the per-account
scheduled-lock summaries, plus the list of in-flight consume batches (each
batch was emitted by one `get_consume_batch` call and none of the listed
transactions has completed yet). -/
structure SchedulerState where
  scheduled_locks : Account → AccountLock
  in_flight_batches : List (List SanitizedTransactionPriority)

/-- The scheduler's starting state: default locks, nothing in flight. -/
def initialSchedulerState : SchedulerState :=
  { scheduled_locks := fun _ => AccountLock.init, in_flight_batches := [] }

/-- Transitions of the reduced scheduler. `dispatch` is
`get_consume_batch`: every transaction collected into the batch passed
`can_schedule_transaction` - no blocking transaction under the locks as they
stood BEFORE `lock_batch` runs, since the source checks the whole batch first
and locks only afterwards - then `lock_batch` is applied and the batch goes
out to a worker. `complete` is `complete_or_retry(.., retry = false)` on one
in-flight transaction: `remove_transaction_from_account_queues` unlocks its
accounts and it leaves its batch. -/
inductive SchedStep : SchedulerState → SchedulerState → Prop
  | dispatch {S : SchedulerState} (batch : List SanitizedTransactionPriority)
      (hadm : ∀ tx ∈ batch,
        getLowestPriorityBlockingTransaction S.scheduled_locks tx = none) :
      SchedStep S
        { scheduled_locks := schedLockBatch S.scheduled_locks batch,
          in_flight_batches := batch :: S.in_flight_batches }
  | complete {S : SchedulerState} (i : Fin S.in_flight_batches.length)
      (j : Fin (S.in_flight_batches.get i).length)
      (locks' : Account → AccountLock)
      (hun : schedUnlockForTransaction S.scheduled_locks
          ((S.in_flight_batches.get i).get j) = some locks') :
      SchedStep S
        { scheduled_locks := locks',
          in_flight_batches :=
            S.in_flight_batches.set i ((S.in_flight_batches.get i).eraseIdx j) }

/-- Scheduler states reachable from the empty scheduler. -/
def SchedReachable (S : SchedulerState) : Prop :=
  Relation.ReflTransGen SchedStep initialSchedulerState S

/-- Two transactions conflict when some account is declared writable by one
and writable or readonly by the other. -/
def conflicts (t1 t2 : SanitizedTransactionPriority) : Prop :=
  ∃ a : Account,
    (a ∈ t1.writable ∧ (a ∈ t2.writable ∨ a ∈ t2.readonly)) ∨
      (a ∈ t1.readonly ∧ a ∈ t2.writable)

/-- Well-formedness of one `AccountLockInner` summary: the stored minimum is
empty exactly when the outstanding count is zero. -/
def InnerInv (inner : AccountLockInner) : Prop :=
  inner.lowest_priority_transaction = none ↔ inner.count = 0

/-- Both sides of an `AccountLock` are well-formed. -/
def LockStructInv (lock : AccountLock) : Prop :=
  InnerInv lock.write ∧ InnerInv lock.read

/-- Total number of write occurrences of account `a` across the in-flight
batches. -/
def inFlightWriteCount (batches : List (List SanitizedTransactionPriority))
    (a : Account) : Nat :=
  (batches.map fun b => (b.map fun t => t.writable.count a).sum).sum

/-- Total number of read occurrences of account `a` across the in-flight
batches. -/
def inFlightReadCount (batches : List (List SanitizedTransactionPriority))
    (a : Account) : Nat :=
  (batches.map fun b => (b.map fun t => t.readonly.count a).sum).sum

/-- The inductive invariant: lock counts record exactly the in-flight account
uses, the stored minima are empty exactly on zero counts, and distinct
in-flight batches are mutually conflict-free. -/
structure SchedInv (S : SchedulerState) : Prop where
  wcount : ∀ a, (S.scheduled_locks a).write.count = inFlightWriteCount S.in_flight_batches a
  rcount : ∀ a, (S.scheduled_locks a).read.count = inFlightReadCount S.in_flight_batches a
  lockinv : ∀ a, LockStructInv (S.scheduled_locks a)
  nconf : S.in_flight_batches.Pairwise
    (fun b1 b2 => ∀ t1 ∈ b1, ∀ t2 ∈ b2, ¬ conflicts t1 t2)

/-- The inner lock a boolean flag selects (write side for `true`), matching
the `if is_write { &mut self.write } else { &mut self.read }` idiom. -/
def AccountLock.side (lock : AccountLock) (is_write : Bool) : AccountLockInner :=
  if is_write then lock.write else lock.read

/-- Locking acts on the selected side and leaves the other side untouched. -/
lemma lock_on_side (lock : AccountLock) (tx : SanitizedTransactionPriority) (w : Bool) :
    (lock.lock_on_transaction tx w).side w = (lock.side w).lock_for_transaction tx ∧
      (lock.lock_on_transaction tx w).side (!w) = lock.side (!w) := by
  cases w <;> simp [AccountLock.lock_on_transaction, AccountLock.side]

/-- `lock_for_transaction` always stores a minimum. -/
lemma lock_for_lpt_ne (inner : AccountLockInner) (tx : SanitizedTransactionPriority) :
    (inner.lock_for_transaction tx).lowest_priority_transaction ≠ none := by
  unfold AccountLockInner.lock_for_transaction
  cases inner.lowest_priority_transaction with
  | none => simp
  | some t => by_cases h : (SanitizedTransactionPriority.cmp tx t).isLT <;> simp [h]

/-- A successful `unlock_for_transaction` decrements the count and keeps the
stored minimum unless the count reaches zero, in which case it clears it. -/
lemma unlock_for_char {inner inner' : AccountLockInner} {tx : SanitizedTransactionPriority}
    (h : inner.unlock_for_transaction tx = some inner') :
    inner.count = inner'.count + 1 ∧
      inner'.lowest_priority_transaction =
        (if inner'.count = 0 then none else inner.lowest_priority_transaction) := by
  unfold AccountLockInner.unlock_for_transaction at h
  split at h
  · cases h
  · rename_i c heq
    injection h with h
    subst h
    exact ⟨heq, rfl⟩

/-- A successful `unlock_for_transaction` preserves the minimum/count
well-formedness. -/
lemma unlock_for_innerInv {inner inner' : AccountLockInner}
    {tx : SanitizedTransactionPriority}
    (h : inner.unlock_for_transaction tx = some inner') (hinv : InnerInv inner) :
    InnerInv inner' := by
  obtain ⟨hc, hl⟩ := unlock_for_char h
  unfold InnerInv at hinv ⊢
  rw [hl]
  by_cases h0 : inner'.count = 0
  · simp [h0]
  · simp only [h0, if_false, iff_false]
    intro hn
    exact absurd (hinv.mp hn) (by omega)

/-- A successful `unlock_on_transaction` unlocks the selected side and leaves
the other side untouched. -/
lemma unlock_on_side {lock lock' : AccountLock} {tx : SanitizedTransactionPriority}
    {w : Bool} (h : lock.unlock_on_transaction tx w = some lock') :
    (lock.side w).unlock_for_transaction tx = some (lock'.side w) ∧
      lock'.side (!w) = lock.side (!w) := by
  cases w
  · rcases hr : lock.read.unlock_for_transaction tx with _ | r
    · simp [AccountLock.unlock_on_transaction, hr] at h
    · simp only [AccountLock.unlock_on_transaction, Bool.false_eq_true, if_false, hr,
        Option.map_some', Option.some.injEq] at h
      subst h
      simp [AccountLock.side, hr]
  · rcases hw : lock.write.unlock_for_transaction tx with _ | wv
    · simp [AccountLock.unlock_on_transaction, hw] at h
    · simp only [AccountLock.unlock_on_transaction, if_pos, hw,
        Option.map_some', Option.some.injEq] at h
      subst h
      simp [AccountLock.side, hw]

/-- A successful `unlock_on_transaction` preserves lock well-formedness. -/
lemma unlock_on_lockStructInv {lock lock' : AccountLock}
    {tx : SanitizedTransactionPriority} {w : Bool}
    (h : lock.unlock_on_transaction tx w = some lock') (hinv : LockStructInv lock) :
    LockStructInv lock' := by
  have hside := unlock_on_side h
  cases w
  · have h2 : lock'.write = lock.write := hside.2
    exact ⟨h2 ▸ hinv.1, unlock_for_innerInv hside.1 hinv.2⟩
  · have h2 : lock'.read = lock.read := hside.2
    exact ⟨unlock_for_innerInv hside.1 hinv.1, h2 ▸ hinv.2⟩

/-- Characterization of one `lock_for_transaction` account pass at any
account: on the selected side the count grows by the account's multiplicity in
the list and the stored minimum is empty only if it was and the account is not
listed; the other side is untouched. -/
lemma schedLockAccList_char (tx : SanitizedTransactionPriority) (w : Bool) :
    ∀ (l : List Account) (locks : Account → AccountLock) (a : Account),
      ((schedLockAccList locks tx l w a).side w).count
          = ((locks a).side w).count + l.count a ∧
        (schedLockAccList locks tx l w a).side (!w) = (locks a).side (!w) ∧
        (((schedLockAccList locks tx l w a).side w).lowest_priority_transaction = none ↔
          (((locks a).side w).lowest_priority_transaction = none ∧ a ∉ l)) := by
  intro l
  induction l with
  | nil =>
      intro locks a
      refine ⟨by simp [schedLockAccList], rfl, by simp [schedLockAccList]⟩
  | cons account rest ih =>
      intro locks a
      have hrec : schedLockAccList locks tx (account :: rest) w
          = schedLockAccList
              (fun x =>
                if x = account then (locks account).lock_on_transaction tx w else locks x)
              tx rest w := rfl
      obtain ⟨ihc, iho, ihl⟩ :=
        ih (fun x =>
          if x = account then (locks account).lock_on_transaction tx w else locks x) a
      by_cases ha : a = account
      · subst ha
        rw [if_pos rfl] at ihc iho ihl
        obtain ⟨hs, ho⟩ := lock_on_side (locks a) tx w
        refine ⟨?_, ?_, ?_⟩
        · rw [hrec, ihc, hs,
            show (((locks a).side w).lock_for_transaction tx).count
                = ((locks a).side w).count + 1 from rfl,
            List.count_cons]
          simp
          omega
        · rw [hrec, iho, ho]
        · rw [hrec, ihl, hs]
          refine iff_of_false (fun hn => ?_) (fun hn => hn.2 (List.mem_cons_self a rest))
          exact lock_for_lpt_ne _ tx hn.1
      · rw [if_neg ha] at ihc iho ihl
        have hne : ¬ ((account == a) = true) := by
          simp only [beq_iff_eq]
          exact fun h => ha h.symm
        have hcnt : (account :: rest).count a = rest.count a := by
          rw [List.count_cons, if_neg hne, Nat.add_zero]
        have hmem : (a ∉ account :: rest) ↔ a ∉ rest := by
          simp [List.mem_cons, ha]
        refine ⟨?_, ?_, ?_⟩
        · rw [hrec, ihc, hcnt]
        · rw [hrec, iho]
        · rw [hrec, ihl, hmem]

/-- Characterization of `lock_for_transaction` at any account: the write count
grows by the account's multiplicity in the writable list, the read count by
its multiplicity in the readonly list, and each stored minimum stays empty
only when the account is not in the corresponding list. -/
lemma schedLockForTransaction_char (locks : Account → AccountLock)
    (tx : SanitizedTransactionPriority) (a : Account) :
    (schedLockForTransaction locks tx a).write.count
        = (locks a).write.count + tx.writable.count a ∧
      (schedLockForTransaction locks tx a).read.count
          = (locks a).read.count + tx.readonly.count a ∧
      ((schedLockForTransaction locks tx a).write.lowest_priority_transaction = none ↔
        ((locks a).write.lowest_priority_transaction = none ∧ a ∉ tx.writable)) ∧
      ((schedLockForTransaction locks tx a).read.lowest_priority_transaction = none ↔
        ((locks a).read.lowest_priority_transaction = none ∧ a ∉ tx.readonly)) := by
  obtain ⟨rc, ro, rl⟩ := schedLockAccList_char tx false tx.readonly locks a
  obtain ⟨wc, wo, wl⟩ :=
    schedLockAccList_char tx true tx.writable
      (schedLockAccList locks tx tx.readonly false) a
  simp only [AccountLock.side, Bool.not_false, Bool.not_true, if_pos, if_neg,
    Bool.false_eq_true, if_false, if_true] at rc ro rl wc wo wl
  unfold schedLockForTransaction
  refine ⟨?_, ?_, ?_, ?_⟩
  · rw [wc, ro]
  · rw [wo, rc]
  · rw [wl, ro]
  · rw [wo, rl]

/-- Characterization of `lock_batch` at any account: counts grow by the summed
per-transaction multiplicities and minima stay empty only when no transaction
of the batch uses the account in the corresponding way. -/
lemma schedLockBatch_char :
    ∀ (batch : List SanitizedTransactionPriority) (locks : Account → AccountLock)
      (a : Account),
      (schedLockBatch locks batch a).write.count
          = (locks a).write.count + (batch.map fun t => t.writable.count a).sum ∧
        (schedLockBatch locks batch a).read.count
            = (locks a).read.count + (batch.map fun t => t.readonly.count a).sum ∧
        ((schedLockBatch locks batch a).write.lowest_priority_transaction = none ↔
          ((locks a).write.lowest_priority_transaction = none ∧
            ∀ t ∈ batch, a ∉ t.writable)) ∧
        ((schedLockBatch locks batch a).read.lowest_priority_transaction = none ↔
          ((locks a).read.lowest_priority_transaction = none ∧
            ∀ t ∈ batch, a ∉ t.readonly)) := by
  intro batch
  induction batch with
  | nil =>
      intro locks a
      refine ⟨by simp [schedLockBatch], by simp [schedLockBatch], ?_, ?_⟩ <;>
        simp [schedLockBatch]
  | cons t ts ih =>
      intro locks a
      have hrec : schedLockBatch locks (t :: ts)
          = schedLockBatch (schedLockForTransaction locks t) ts := rfl
      obtain ⟨ihw, ihr, ihlw, ihlr⟩ := ih (schedLockForTransaction locks t) a
      obtain ⟨hw, hr, hlw, hlr⟩ := schedLockForTransaction_char locks t a
      refine ⟨?_, ?_, ?_, ?_⟩
      · rw [hrec, ihw, hw, List.map_cons, List.sum_cons]
        omega
      · rw [hrec, ihr, hr, List.map_cons, List.sum_cons]
        omega
      · rw [hrec, ihlw, hlw, List.forall_mem_cons]
        tauto
      · rw [hrec, ihlr, hlr, List.forall_mem_cons]
        tauto

/-- Characterization of one successful unlock pass over an account list: the
selected side's count drops by the account's multiplicity in the list, the
other side is untouched, and lock well-formedness is preserved pointwise. -/
lemma schedUnlockAccList_char (tx : SanitizedTransactionPriority) (w : Bool) :
    ∀ (l : List Account) (locks locks' : Account → AccountLock),
      schedUnlockAccList locks tx l w = some locks' →
      ∀ a : Account,
        ((locks a).side w).count = ((locks' a).side w).count + l.count a ∧
          (locks' a).side (!w) = (locks a).side (!w) ∧
          (LockStructInv (locks a) → LockStructInv (locks' a)) := by
  intro l
  induction l with
  | nil =>
      intro locks locks' h a
      simp only [schedUnlockAccList, Option.some.injEq] at h
      subst h
      exact ⟨by simp, rfl, id⟩
  | cons account rest ih =>
      intro locks locks' h a
      simp only [schedUnlockAccList, Option.bind_eq_some] at h
      obtain ⟨lock, hlk, hrest⟩ := h
      obtain ⟨ihc, iho, ihinv⟩ :=
        ih (fun x => if x = account then lock else locks x) locks' hrest a
      obtain ⟨hun, hother⟩ := unlock_on_side hlk
      obtain ⟨hdec, -⟩ := unlock_for_char hun
      by_cases ha : a = account
      · subst ha
        rw [if_pos rfl] at ihc iho ihinv
        refine ⟨?_, ?_, ?_⟩
        · rw [List.count_cons, if_pos (by simp), hdec, ihc]
          omega
        · rw [iho, hother]
        · intro hinv
          exact ihinv (unlock_on_lockStructInv hlk hinv)
      · rw [if_neg ha] at ihc iho ihinv
        have hne : ¬ ((account == a) = true) := by
          simp only [beq_iff_eq]
          exact fun h => ha h.symm
        refine ⟨?_, ?_, ?_⟩
        · rw [List.count_cons, if_neg hne, Nat.add_zero, ihc]
        · rw [iho]
        · exact ihinv

/-- Characterization of one successful transaction unlock at any account: the
write count drops by the account's multiplicity in the writable list, the read
count by its multiplicity in the readonly list, and lock well-formedness is
preserved pointwise. -/
lemma schedUnlockForTransaction_char {locks locks' : Account → AccountLock}
    {tx : SanitizedTransactionPriority}
    (h : schedUnlockForTransaction locks tx = some locks') (a : Account) :
    (locks a).write.count = (locks' a).write.count + tx.writable.count a ∧
      (locks a).read.count = (locks' a).read.count + tx.readonly.count a ∧
      (LockStructInv (locks a) → LockStructInv (locks' a)) := by
  unfold schedUnlockForTransaction at h
  rw [Option.bind_eq_some] at h
  obtain ⟨mid, hmid, hrest⟩ := h
  obtain ⟨rc, ro, rinv⟩ := schedUnlockAccList_char tx false tx.readonly locks mid hmid a
  obtain ⟨wc, wo, winv⟩ := schedUnlockAccList_char tx true tx.writable mid locks' hrest a
  simp only [AccountLock.side, Bool.not_false, Bool.not_true, if_pos, if_neg,
    Bool.false_eq_true, if_false, if_true] at rc ro rinv wc wo winv
  refine ⟨?_, ?_, ?_⟩
  · rw [← ro, wc]
  · rw [rc, ← wo]
  · exact fun hinv => winv (rinv hinv)

/-- `option_min` with an empty left argument returns the right one. -/
lemma option_min_none_left (o : Option SanitizedTransactionPriority) :
    option_min none o = o := by
  cases o <;> rfl

/-- `option_min` is empty exactly when both arguments are. -/
lemma option_min_eq_none {o1 o2 : Option SanitizedTransactionPriority} :
    option_min o1 o2 = none ↔ o1 = none ∧ o2 = none := by
  cases o1 <;> cases o2 <;> simp [option_min]

/-- A left fold of `option_min` over mapped blocking queries is empty exactly
when the seed and every queried value are. -/
lemma foldl_option_min_none (g : Account → Option SanitizedTransactionPriority) :
    ∀ (l : List Account) (init : Option SanitizedTransactionPriority),
      l.foldl (fun acc x => option_min acc (g x)) init = none ↔
        (init = none ∧ ∀ x ∈ l, g x = none) := by
  intro l
  induction l with
  | nil => intro init; simp
  | cons x xs ih =>
      intro init
      rw [List.foldl_cons, ih, option_min_eq_none, List.forall_mem_cons]
      tauto

/-- A write query against an account lock is unblocked exactly when neither
side stores a minimum. -/
lemma min_blocking_none_true {lock : AccountLock}
    (h : lock.min_blocking_transaction true = none) :
    lock.write.lowest_priority_transaction = none ∧
      lock.read.lowest_priority_transaction = none := by
  have e : lock.min_blocking_transaction true
      = option_min lock.read.lowest_priority_transaction
          lock.write.lowest_priority_transaction := by
    simp only [AccountLock.min_blocking_transaction,
      AccountLock.get_lowest_priority_transaction, if_pos, if_neg, Bool.false_eq_true,
      if_false, if_true]
    rw [option_min_none_left]
  rw [e, option_min_eq_none] at h
  exact ⟨h.2, h.1⟩

/-- A read query against an account lock is unblocked exactly when the write
side stores no minimum. -/
lemma min_blocking_none_false {lock : AccountLock}
    (h : lock.min_blocking_transaction false = none) :
    lock.write.lowest_priority_transaction = none := by
  have e : lock.min_blocking_transaction false
      = lock.write.lowest_priority_transaction := by
    simp only [AccountLock.min_blocking_transaction,
      AccountLock.get_lowest_priority_transaction, Bool.false_eq_true, if_false, if_true]
    rw [option_min_none_left]
  rwa [e] at h

/-- An admitted transaction (no blocking transaction found) sees empty write
minima on all its accounts and an empty read minimum on its writable
accounts. -/
lemma blocking_none_char (locks : Account → AccountLock)
    (tx : SanitizedTransactionPriority)
    (h : getLowestPriorityBlockingTransaction locks tx = none) :
    (∀ a ∈ tx.readonly, (locks a).write.lowest_priority_transaction = none) ∧
      (∀ a ∈ tx.writable,
        (locks a).write.lowest_priority_transaction = none ∧
          (locks a).read.lowest_priority_transaction = none) := by
  simp only [getLowestPriorityBlockingTransaction] at h
  rw [foldl_option_min_none] at h
  obtain ⟨h1, h2⟩ := h
  rw [foldl_option_min_none] at h1
  exact ⟨fun a ha => min_blocking_none_false (h1.2 a ha),
    fun a ha => min_blocking_none_true (h2 a ha)⟩

/-- Removing the element at a valid index removes exactly its value from the
sum. -/
lemma sum_eraseIdx_add :
    ∀ (l : List Nat) (i : Nat) (h : i < l.length), (l.eraseIdx i).sum + l[i] = l.sum := by
  intro l
  induction l with
  | nil => intro i h; exact absurd h (Nat.not_lt_zero i)
  | cons x xs ih =>
      intro i h
      cases i with
      | zero => simp [List.eraseIdx]; omega
      | succ j =>
          have hj : j < xs.length := by simpa using h
          have := ih j hj
          simp only [List.eraseIdx, List.sum_cons, List.getElem_cons_succ]
          omega

/-- `map` commutes with `eraseIdx`. -/
lemma map_eraseIdx {α β : Type} (f : α → β) :
    ∀ (l : List α) (i : Nat), (l.eraseIdx i).map f = (l.map f).eraseIdx i := by
  intro l
  induction l with
  | nil => intro i; rfl
  | cons x xs ih =>
      intro i
      cases i with
      | zero => rfl
      | succ j => simp only [List.eraseIdx, List.map_cons, ih j]

/-- Overwriting the element at a valid index swaps its value in the sum. -/
lemma sum_set_add :
    ∀ (l : List Nat) (i : Nat) (h : i < l.length) (x : Nat),
      (l.set i x).sum + l[i] = l.sum + x := by
  intro l
  induction l with
  | nil => intro i h; exact absurd h (Nat.not_lt_zero i)
  | cons y ys ih =>
      intro i h x
      cases i with
      | zero => simp [List.set]; omega
      | succ j =>
          have hj : j < ys.length := by simpa using h
          have := ih j hj x
          simp only [List.set, List.sum_cons, List.getElem_cons_succ]
          omega

/-- When the in-flight occurrence total of an account is zero, no in-flight
transaction uses the account in that way. -/
lemma inFlight_count_zero (f : SanitizedTransactionPriority → List Account)
    {batches : List (List SanitizedTransactionPriority)} {a : Account}
    (h : (batches.map fun b => (b.map fun t => (f t).count a).sum).sum = 0)
    {b : List SanitizedTransactionPriority} (hb : b ∈ batches)
    {t : SanitizedTransactionPriority} (ht : t ∈ b) :
    a ∉ f t := by
  have h1 := List.sum_eq_zero_iff.mp h _ (List.mem_map_of_mem _ hb)
  have h2 := List.sum_eq_zero_iff.mp h1 _ (List.mem_map_of_mem _ ht)
  exact List.count_eq_zero.mp h2

/-- Account conflicts are symmetric. -/
lemma conflicts_symm {t1 t2 : SanitizedTransactionPriority} (h : conflicts t1 t2) :
    conflicts t2 t1 := by
  obtain ⟨a, h⟩ := h
  exact ⟨a, by tauto⟩

/-- Replacing a batch with one of its member-subsets keeps the pairwise
conflict-freedom of the batch list. -/
lemma nonconf_pairwise_set
    {batches : List (List SanitizedTransactionPriority)}
    (hp : batches.Pairwise (fun b1 b2 => ∀ t1 ∈ b1, ∀ t2 ∈ b2, ¬ conflicts t1 t2))
    (i : Nat) (b' : List SanitizedTransactionPriority)
    (hi : i < batches.length)
    (hsub : ∀ t ∈ b', t ∈ batches[i]) :
    (batches.set i b').Pairwise
      (fun b1 b2 => ∀ t1 ∈ b1, ∀ t2 ∈ b2, ¬ conflicts t1 t2) := by
  rw [List.pairwise_iff_getElem] at hp ⊢
  intro k m hk hm hkm
  rw [List.length_set] at hk hm
  rw [List.getElem_set, List.getElem_set]
  by_cases hki : i = k
  · subst hki
    rw [if_pos rfl, if_neg (by omega)]
    intro t1 ht1 t2 ht2
    exact hp i m hk hm hkm t1 (hsub t1 ht1) t2 ht2
  · rw [if_neg hki]
    by_cases hmi : i = m
    · subst hmi
      rw [if_pos rfl]
      intro t1 ht1 t2 ht2
      exact hp k i hk hm hkm t1 ht1 t2 (hsub t2 ht2)
    · rw [if_neg hmi]
      exact hp k m hk hm hkm

/-- Completing one in-flight transaction removes exactly its per-account
occurrence count from the in-flight total. -/
lemma inFlight_complete_sum (f : SanitizedTransactionPriority → List Account)
    (batches : List (List SanitizedTransactionPriority))
    (i : Fin batches.length) (j : Fin (batches.get i).length) (a : Account) :
    ((batches.set i ((batches.get i).eraseIdx j)).map
        (fun b => (b.map fun t => (f t).count a).sum)).sum
        + (f ((batches.get i).get j)).count a
      = (batches.map fun b => (b.map fun t => (f t).count a).sum).sum := by
  have hi : (i : Nat) < (batches.map
      (fun b => (b.map fun t => (f t).count a).sum)).length := by
    simpa using i.isLt
  have hj : (j : Nat) < ((batches.get i).map fun t => (f t).count a).length := by
    simpa using j.isLt
  have herase := sum_eraseIdx_add ((batches.get i).map fun t => (f t).count a) (j : Nat) hj
  have hset := sum_set_add (batches.map fun b => (b.map fun t => (f t).count a).sum)
    (i : Nat) hi (((batches.get i).map fun t => (f t).count a).eraseIdx (j : Nat)).sum
  rw [List.getElem_map] at hset
  rw [List.getElem_map] at herase
  simp only [List.map_set, map_eraseIdx, List.get_eq_getElem] at *
  omega

/-- Each scheduler transition preserves the inductive invariant. -/
lemma schedInv_step {S S' : SchedulerState} (h : SchedStep S S') (hinv : SchedInv S) :
    SchedInv S' := by
  cases h with
  | dispatch batch hadm =>
      refine ⟨?_, ?_, ?_, ?_⟩
      · intro a
        show (schedLockBatch S.scheduled_locks batch a).write.count
            = inFlightWriteCount (batch :: S.in_flight_batches) a
        obtain ⟨hw, -, -, -⟩ := schedLockBatch_char batch S.scheduled_locks a
        rw [hw, SchedInv.wcount hinv a]
        simp only [inFlightWriteCount, List.map_cons, List.sum_cons]
        omega
      · intro a
        show (schedLockBatch S.scheduled_locks batch a).read.count
            = inFlightReadCount (batch :: S.in_flight_batches) a
        obtain ⟨-, hr, -, -⟩ := schedLockBatch_char batch S.scheduled_locks a
        rw [hr, SchedInv.rcount hinv a]
        simp only [inFlightReadCount, List.map_cons, List.sum_cons]
        omega
      · intro a
        show LockStructInv (schedLockBatch S.scheduled_locks batch a)
        obtain ⟨hw, hr, hlw, hlr⟩ := schedLockBatch_char batch S.scheduled_locks a
        obtain ⟨hiw, hir⟩ := SchedInv.lockinv hinv a
        constructor
        · unfold InnerInv at hiw ⊢
          rw [hlw, hw, hiw]
          constructor
          · rintro ⟨h0, hall⟩
            have hs : (batch.map fun t => t.writable.count a).sum = 0 :=
              List.sum_eq_zero_iff.mpr (by
                intro x hx
                obtain ⟨t, ht, rfl⟩ := List.mem_map.mp hx
                exact List.count_eq_zero.mpr (hall t ht))
            omega
          · intro h0
            refine ⟨by omega, fun t ht => List.count_eq_zero.mp ?_⟩
            have hs0 : (batch.map fun t => t.writable.count a).sum = 0 := by omega
            exact List.sum_eq_zero_iff.mp hs0 _ (List.mem_map_of_mem _ ht)
        · unfold InnerInv at hir ⊢
          rw [hlr, hr, hir]
          constructor
          · rintro ⟨h0, hall⟩
            have hs : (batch.map fun t => t.readonly.count a).sum = 0 :=
              List.sum_eq_zero_iff.mpr (by
                intro x hx
                obtain ⟨t, ht, rfl⟩ := List.mem_map.mp hx
                exact List.count_eq_zero.mpr (hall t ht))
            omega
          · intro h0
            refine ⟨by omega, fun t ht => List.count_eq_zero.mp ?_⟩
            have hs0 : (batch.map fun t => t.readonly.count a).sum = 0 := by omega
            exact List.sum_eq_zero_iff.mp hs0 _ (List.mem_map_of_mem _ ht)
      · show (batch :: S.in_flight_batches).Pairwise
          (fun b1 b2 => ∀ t1 ∈ b1, ∀ t2 ∈ b2, ¬ conflicts t1 t2)
        rw [List.pairwise_cons]
        refine ⟨?_, SchedInv.nconf hinv⟩
        intro b' hb' t1 ht1 t2 ht2 hc
        obtain ⟨hro, hwr⟩ := blocking_none_char S.scheduled_locks t1 (hadm t1 ht1)
        obtain ⟨a, hcase⟩ := hc
        rcases hcase with ⟨h1w, h2⟩ | ⟨h1r, h2w⟩
        · obtain ⟨hwn, hrn⟩ := hwr a h1w
          have hw0 : (S.scheduled_locks a).write.count = 0 :=
            ((SchedInv.lockinv hinv a).1).mp hwn
          have hr0 : (S.scheduled_locks a).read.count = 0 :=
            ((SchedInv.lockinv hinv a).2).mp hrn
          have hwz := SchedInv.wcount hinv a
          have hrz := SchedInv.rcount hinv a
          simp only [inFlightWriteCount] at hwz
          simp only [inFlightReadCount] at hrz
          have hzw : (S.in_flight_batches.map
              fun b => (b.map fun t => t.writable.count a).sum).sum = 0 := by omega
          have hzr : (S.in_flight_batches.map
              fun b => (b.map fun t => t.readonly.count a).sum).sum = 0 := by omega
          rcases h2 with h2w | h2r
          · exact inFlight_count_zero (fun t => t.writable) hzw hb' ht2 h2w
          · exact inFlight_count_zero (fun t => t.readonly) hzr hb' ht2 h2r
        · have hwn := hro a h1r
          have hw0 : (S.scheduled_locks a).write.count = 0 :=
            ((SchedInv.lockinv hinv a).1).mp hwn
          have hwz := SchedInv.wcount hinv a
          simp only [inFlightWriteCount] at hwz
          have hzw : (S.in_flight_batches.map
              fun b => (b.map fun t => t.writable.count a).sum).sum = 0 := by omega
          exact inFlight_count_zero (fun t => t.writable) hzw hb' ht2 h2w
  | complete i j locks' hun =>
      refine ⟨?_, ?_, ?_, ?_⟩
      · intro a
        have e1 := (schedUnlockForTransaction_char hun a).1
        have e2 := SchedInv.wcount hinv a
        show (locks' a).write.count
            = inFlightWriteCount
                (S.in_flight_batches.set i ((S.in_flight_batches.get i).eraseIdx j)) a
        have hsum := inFlight_complete_sum (fun t => t.writable) S.in_flight_batches i j a
        simp only [inFlightWriteCount] at e2 ⊢
        omega
      · intro a
        have e1 := (schedUnlockForTransaction_char hun a).2.1
        have e2 := SchedInv.rcount hinv a
        show (locks' a).read.count
            = inFlightReadCount
                (S.in_flight_batches.set i ((S.in_flight_batches.get i).eraseIdx j)) a
        have hsum := inFlight_complete_sum (fun t => t.readonly) S.in_flight_batches i j a
        simp only [inFlightReadCount] at e2 ⊢
        omega
      · intro a
        show LockStructInv (locks' a)
        exact (schedUnlockForTransaction_char hun a).2.2 (SchedInv.lockinv hinv a)
      · show (S.in_flight_batches.set i ((S.in_flight_batches.get i).eraseIdx j)).Pairwise
          (fun b1 b2 => ∀ t1 ∈ b1, ∀ t2 ∈ b2, ¬ conflicts t1 t2)
        refine nonconf_pairwise_set (SchedInv.nconf hinv) i _ i.isLt ?_
        intro t ht
        exact (List.eraseIdx_sublist (S.in_flight_batches.get i) j).subset ht

/-- The empty scheduler satisfies the invariant. -/
lemma schedInv_init : SchedInv initialSchedulerState :=
  ⟨fun _ => rfl, fun _ => rfl,
    fun _ => ⟨⟨fun _ => rfl, fun _ => rfl⟩, ⟨fun _ => rfl, fun _ => rfl⟩⟩,
    List.Pairwise.nil⟩

/-- Every reachable scheduler state satisfies the invariant. -/
lemma schedInv_reachable {S : SchedulerState} (h : SchedReachable S) : SchedInv S := by
  induction h with
  | refl => exact schedInv_init
  | tail _ hstep ih => exact schedInv_step hstep ih

/-- C1: at every reachable scheduler state, two transactions in flight in two
different consume batches (distinct batch indices) never conflict: no account
is declared writable by one and writable or readonly by the other. Batches
are admitted by `get_consume_batch` only when unblocked against the
scheduled locks and are locked by `lock_batch` on dispatch. -/
theorem c1_inflight_batches_nonconflicting
    (S : SchedulerState) (hreach : SchedReachable S)
    (i j : Fin S.in_flight_batches.length) (hij : i ≠ j)
    (t1 t2 : SanitizedTransactionPriority) ( _hne : t1 ≠ t2)
    (h1 : t1 ∈ S.in_flight_batches.get i)
    (h2 : t2 ∈ S.in_flight_batches.get j) :
    ¬ conflicts t1 t2 := by
  have hinv := schedInv_reachable hreach
  have hp := List.pairwise_iff_get.mp (SchedInv.nconf hinv)
  rcases lt_or_gt_of_ne hij with hlt | hgt
  · exact hp i j hlt t1 h1 t2 h2
  · intro hc
    exact hp j i hgt t2 h2 t1 h1 (conflicts_symm hc)

/-- First transaction dispatched in C1's witness run: writes account 0, reads
account 1. -/
def c1Tx1 : SanitizedTransactionPriority :=
  { priority := 5, message_hash := 1, writable := [0], readonly := [1] }

/-- Second transaction dispatched in C1's witness run: writes account 2, reads
account 3. -/
def c1Tx2 : SanitizedTransactionPriority :=
  { priority := 4, message_hash := 2, writable := [2], readonly := [3] }

/-- The scheduler state after dispatching the batch `[c1Tx1]`. -/
def c1State1 : SchedulerState :=
  { scheduled_locks := schedLockBatch initialSchedulerState.scheduled_locks [c1Tx1],
    in_flight_batches := [[c1Tx1]] }

/-- The scheduler state after further dispatching the batch `[c1Tx2]`. -/
def c1State2 : SchedulerState :=
  { scheduled_locks := schedLockBatch c1State1.scheduled_locks [c1Tx2],
    in_flight_batches := [c1Tx2] :: c1State1.in_flight_batches }

/-- The two-batch witness state is reachable. -/
lemma c1State2_reachable : SchedReachable c1State2 := by
  have s1 : SchedStep initialSchedulerState c1State1 :=
    SchedStep.dispatch [c1Tx1] (by
      intro tx htx
      rw [List.mem_singleton] at htx
      subst htx
      rfl)
  have s2 : SchedStep c1State1 c1State2 :=
    SchedStep.dispatch [c1Tx2] (by
      intro tx htx
      rw [List.mem_singleton] at htx
      subst htx
      rfl)
  exact Relation.ReflTransGen.tail (Relation.ReflTransGen.tail Relation.ReflTransGen.refl s1) s2

/-- Witness for C1 at the concrete reachable state holding the two dispatched
batches `[c1Tx2]` and `[c1Tx1]`. -/
theorem c1_inflight_batches_nonconflicting_witness : ¬ conflicts c1Tx2 c1Tx1 :=
  c1_inflight_batches_nonconflicting c1State2 c1State2_reachable
    ⟨0, by decide⟩ ⟨1, by decide⟩ (by decide) c1Tx2 c1Tx1 (by decide)
    (by decide) (by decide)
